import Mathlib

/-!
Verification of `TOY2DAC_marm/utils_plotting_toy2dac.py`.

Shallow embedding conventions:
* numpy float values are modelled as exact rationals (`ℚ`) where the program
  only does field arithmetic on data coming from rational inputs, and as real
  (`ℝ`) / complex (`ℂ`) numbers where transcendental functions enter
  (`np.exp`, `np.pi`, `np.sqrt`).
* a complex64 tensor of shape (nfreq, nsrc, nrec) is a nested list
  `List (List (List ℂ))`, outer axis = frequency.
* Python exceptions surface as `Except NpError`.
* `np.fft.fftn` (a library call) is modelled by its documented formula:
  the unnormalised forward DFT `X[n] = Σ_k x[k]·exp(-2πi·k·n/N)` along axis 0.
* `scipy.special.hankel1` (a library call with no Mathlib counterpart) is an
  abstract function parameter of `greenfunc2d`.
-/

/-- Exceptions raised by the Python/numpy code paths we model. -/
inductive NpError
  /-- indexing an array out of range, e.g. `freqlist[1]` on a short list -/
  | indexError
  /-- Python scalar division by zero (e.g. `delay_n_period / fc` at `fc = 0`) -/
  | zeroDivision
  /-- `np.zeros` with a negative dimension -/
  | negativeDimension
  /-- numpy slice assignment whose source shape cannot broadcast to the
      target slice shape -/
  | broadcastMismatch

/-- Tensor of complex64 values, axes (freq, src, rec). -/
abbrev CTensor := List (List (List ℂ))

/-- Tensor of real values, axes (time, src, rec). -/
abbrev RTensor := List (List (List ℝ))

/-- Python `int()` applied to a (rational-valued) float: truncation toward
zero. -/
def pyInt (q : ℚ) : ℤ := if 0 ≤ q then ⌊q⌋ else -⌊-q⌋

/-- CPython normalisation of one slice endpoint for a sequence of length `n`:
a negative index gets `n` added, then the result is clamped into `[0, n]`. -/
def pySliceIdx (n : ℕ) (x : ℤ) : ℕ := (min (max (if x < 0 then x + n else x) 0) n).toNat

/-- `l[a:b]` (Python slice read, step 1). -/
def pySliceGet {α : Type} (l : List α) (a b : ℤ) : List α :=
  (l.take (pySliceIdx l.length b)).drop (pySliceIdx l.length a)

/-- numpy slice assignment `l[a:b] = src` along the leading axis.  The source
must have exactly the length of the target slice, otherwise numpy raises a
broadcast error.  (numpy would also broadcast a length-1 source; `freq2time`
only ever passes sources of length `len(freqlist) ≥ 2`, because
`read_seis` reshapes the file to `(len(freqlist), nsrc, nrec)`, so that case
is unreachable there and is not modelled.) -/
def sliceAssign {α : Type} (l : List α) (a b : ℤ) (src : List α) : Except NpError (List α) :=
  if src.length = pySliceIdx l.length b - pySliceIdx l.length a then
    Except.ok (l.take (pySliceIdx l.length a) ++ src ++
      l.drop (pySliceIdx l.length a + (pySliceIdx l.length b - pySliceIdx l.length a)))
  else Except.error NpError.broadcastMismatch

/-- `np.arange(a, b)` for integer endpoints. -/
def pyArange (a b : ℤ) : List ℤ := (List.range (b - a).toNat).map (fun i : ℕ => a + (i : ℤ))

/-- `np.roll(l, s)`: circular shift by `s` places (element `l[i]` moves to
position `(i+s) mod n`), i.e. a left rotation by `(-s) mod n`. -/
def pyRoll {α : Type} (l : List α) (s : ℤ) : List α :=
  if l.length = 0 then l else l.rotateLeft ((-s % (l.length : ℤ)).toNat)

/-- `np.arange(start, stop, step)` for rational arguments (float semantics
modelled exactly): `⌈(stop-start)/step⌉` samples `start + k·step`.  numpy
raises on `step = 0`; that case is modelled as the empty list and is never
reached by the claims. -/
def pyArangeQ (a b step : ℚ) : List ℚ :=
  if step = 0 then []
  else (List.range (⌈(b - a) / step⌉).toNat).map (fun k : ℕ => a + (k : ℚ) * step)

/-- Entry `x[k][i][j]` of a complex tensor, defaulting to `0` out of range. -/
def tget (x : CTensor) (k i j : ℕ) : ℂ := ((x.getD k []).getD i []).getD j 0

/-- Entry `x[k][i][j]` of a real tensor, defaulting to `0` out of range. -/
def tgetR (x : RTensor) (k i j : ℕ) : ℝ := ((x.getD k []).getD i []).getD j 0

/-- `np.argmin` on a rational list: the first index attaining the minimum
value (numpy documents that the first occurrence is returned).  numpy raises
on an empty array; the junk value `0` is returned in that unreachable case. -/
def npArgmin (l : List ℚ) : ℕ :=
  match l.min? with
  | none => 0
  | some m => List.indexOf m l

/-! ## `PltToy2dac.freq2time` (source lines 119-147), split into its stages.

Local variables of the Python function become the named definitions below,
each computed from `self.freqlist` exactly as in the source. -/

/-- `dfreq = self.freqlist[1] - self.freqlist[0]` (line 122). -/
def dfreqOf (fl : List ℚ) : ℚ := fl.getD 1 0 - fl.getD 0 0

/-- `fmax = self.freqlist.max()` (line 121). -/
def fmaxOf (fl : List ℚ) : ℚ := (fl.max?).getD 0

/-- `Nhalf = int(fmax / dfreq)` (line 123): note `int()` truncates. -/
def nhalfOf (fl : List ℚ) : ℤ := pyInt (fmaxOf fl / dfreqOf fl)

/-- `N = 1 + 2 * Nhalf` (line 124), as the nonnegative array dimension. -/
def nfullOf (fl : List ℚ) : ℕ := (1 + 2 * nhalfOf fl).toNat

/-- `ind1 = int(self.freqlist[0] / dfreq)` (line 126). -/
def ind1Of (fl : List ℚ) : ℤ := pyInt (fl.getD 0 0 / dfreqOf fl)

/-- `ind2 = Nhalf + 1` (line 127). -/
def ind2Of (fl : List ℚ) : ℤ := nhalfOf fl + 1

/-- `f = dfreq * np.roll(np.arange(-Nhalf, Nhalf + 1), -Nhalf)` (line 125). -/
def faxisOf (fl : List ℚ) : List ℚ :=
  (pyRoll (pyArange (-nhalfOf fl) (nhalfOf fl + 1)) (-nhalfOf fl)).map
    (fun z : ℤ => dfreqOf fl * (z : ℚ))

/-- The `nsrc × nrec` zero matrix of `np.zeros((N, nsrc, nrec))`, with
`nsrc`, `nrec` read off from `dataf.shape` as in line 120. -/
def zeroMat (dataf : CTensor) : List (List ℂ) :=
  List.replicate (dataf.headD []).length
    (List.replicate ((dataf.headD []).headD []).length 0)

/-- `np.conj` applied elementwise to a tensor. -/
def npConjT (x : CTensor) : CTensor :=
  x.map (fun m => m.map (fun r => r.map (starRingEnd ℂ)))

/-- Spectrum reconstruction, lines 119-130:
`datafft = np.zeros((N, nsrc, nrec)); datafft[ind1:ind2] = dataf;`
`datafft[ind2:-ind1+1] = np.conj(dataf[::-1])`.
The guards model the Python exceptions: `freqlist[1]` raises on a short
list, `int(fmax/0.0)` raises (inf/nan to int), and `np.zeros` raises on a
negative dimension. -/
def reconstruct (fl : List ℚ) (dataf : CTensor) : Except NpError CTensor :=
  if fl.length < 2 then Except.error NpError.indexError
  else if dfreqOf fl = 0 then Except.error NpError.zeroDivision
  else if 1 + 2 * nhalfOf fl ≤ 0 then Except.error NpError.negativeDimension
  else
    match sliceAssign (List.replicate (nfullOf fl) (zeroMat dataf))
        (ind1Of fl) (ind2Of fl) dataf with
    | Except.error e => Except.error e
    | Except.ok dfft1 =>
        sliceAssign dfft1 (ind2Of fl) (-ind1Of fl + 1) (npConjT dataf.reverse)

/-- One entry of `ricker_delay` (lines 131-134):
`2. / rconst * f ** 2 / fc ** 3 * np.exp(-(f / fc) ** 2 + 1j * 2 * np.pi * f * delay)`
with `rconst = np.sqrt(np.pi)`. -/
noncomputable def rickerTerm (fc delay f : ℚ) : ℂ :=
  2 / (Real.sqrt Real.pi : ℂ) * (f : ℂ) ^ 2 / (fc : ℂ) ^ 3 *
    Complex.exp (-((f : ℂ) / (fc : ℂ)) ^ 2 +
      Complex.I * 2 * (Real.pi : ℂ) * (f : ℂ) * (delay : ℂ))

/-- The vector `ricker_delay` over the rolled frequency axis. -/
noncomputable def rickerDelay (fc delay : ℚ) (f : List ℚ) : List ℂ := f.map (rickerTerm fc delay)

/-- The double loop of lines 135-137: `datafft[:, i, j] = ricker_delay * datafft[:, i, j]`
for every source/receiver pair, i.e. an elementwise scaling of frequency row
`k` by `w[k]`. -/
noncomputable def applyWavelet (w : List ℂ) (x : CTensor) : CTensor :=
  List.zipWith (fun r m => m.map (fun row => row.map (fun v => r * v))) w x

/-- The twiddle factor `exp(-2πi·k·n/N)` of numpy's forward DFT. -/
noncomputable def dftKernel (N k n : ℕ) : ℂ :=
  Complex.exp (-(2 * (Real.pi : ℂ) * Complex.I * ((k * n : ℕ) : ℂ)) / (N : ℂ))

/-- Line 138: `datat = -np.real(1./N * dfreq * np.fft.fftn(datafft, s=[N], axes=[0]))`,
with `np.fft.fftn` along axis 0 modelled by its documented formula
`X[n] = Σ_k x[k]·exp(-2πi·k·n/N)` (`s=[N]` equals the axis-0 length here). -/
noncomputable def invTransform (dfreq : ℚ) (x : CTensor) : RTensor :=
  (List.range x.length).map (fun n =>
    (List.range (x.headD []).length).map (fun i =>
      (List.range ((x.headD []).headD []).length).map (fun j =>
        -((((1 : ℂ) / (x.length : ℂ)) * (dfreq : ℂ) *
          ∑ k ∈ Finset.range x.length, tget x k i j * dftKernel x.length k n).re))))

/-- The HDF5 artifact written by `freq2time` (lines 139-147), one field per
dataset key. -/
structure H5Out where
  seismo : RTensor
  fc : ℚ
  delay : ℚ
  spectrum : CTensor
  seismo_spec : CTensor
  freqlist : List ℚ
  df : ℚ
  dt : ℚ

/-- `PltToy2dac.freq2time` end to end: `dataf` is the tensor returned by
`read_seis(fname)` (the binary file reshaped to `(nfreq, nsrc, nrec)`); the
result is the content of the written HDF5 file.  `delay = delay_n_period/fc`
is a Python float division, raising at `fc = 0`. -/
noncomputable def freq2time (fl : List ℚ) (dataf : CTensor) (fc delayNP : ℚ) : Except NpError H5Out :=
  match reconstruct fl dataf with
  | Except.error e => Except.error e
  | Except.ok datafft =>
    if fc = 0 then Except.error NpError.zeroDivision
    else
      Except.ok
        { seismo := invTransform (dfreqOf fl)
            (applyWavelet (rickerDelay fc (delayNP / fc) (faxisOf fl)) datafft)
          fc := fc
          delay := delayNP / fc
          spectrum := dataf
          seismo_spec := pySliceGet
            (applyWavelet (rickerDelay fc (delayNP / fc) (faxisOf fl)) datafft)
            (ind1Of fl) (ind2Of fl)
          freqlist := fl
          df := dfreqOf fl
          dt := 1 / dfreqOf fl / ((nfullOf fl : ℚ) - 1) }

/-- `PltToy2dac.get_id` (lines 299-301): `np.argmin(np.abs(x - xarr))`. -/
def get_id (x : ℚ) (xarr : List ℚ) : ℕ := npArgmin (xarr.map (fun a => |x - a|))

/-- `greenfunc2d` (lines 320-328).  `hank` abstracts `scipy.special.hankel1`
(order, argument).  Coordinates are pairs `(x, z)`; `freqlist`, `vp`, `qp`
are rational-valued floats. -/
noncomputable def greenfunc2d (hank : ℕ → ℂ → ℂ) (xzsrc xzrec : ℚ × ℚ) (freqlist : List ℚ)
    (vp qp : ℚ) : List ℂ :=
  freqlist.map (fun fq =>
    hank 0 (2 * (Real.pi : ℂ) * (fq : ℂ) /
        ((vp : ℂ) * (1 - Complex.I / (2 * (qp : ℂ)))) *
      ((Real.sqrt ((((xzsrc.1 - xzrec.1 : ℚ) : ℝ)) ^ 2 +
        (((xzsrc.2 - xzrec.2 : ℚ) : ℝ)) ^ 2) : ℝ) : ℂ)) * (Complex.I / 4))

/-! ## General helper lemmas -/

theorem rowget_map {f : ℂ → ℂ} (hf : f 0 = 0) (row : List ℂ) (j : ℕ) :
    (row.map f).getD j 0 = f (row.getD j 0) := by
  rcases h : row[j]? with _ | v
  · simp [List.getD_eq_getElem?_getD, List.getElem?_map, h, hf]
  · simp [List.getD_eq_getElem?_getD, List.getElem?_map, h]

theorem mget_map {f : ℂ → ℂ} (hf : f 0 = 0) (m : List (List ℂ)) (i j : ℕ) :
    ((m.map (fun row => row.map f)).getD i []).getD j 0 =
      f ((m.getD i []).getD j 0) := by
  rcases h : m[i]? with _ | row
  · simp [List.getD_eq_getElem?_getD, List.getElem?_map, h, hf]
  · simp [List.getD_eq_getElem?_getD, List.getElem?_map, h]
    simpa [List.getD_eq_getElem?_getD] using rowget_map hf row j

theorem tget_applyWavelet (w : List ℂ) (x : CTensor) (k i j : ℕ) :
    tget (applyWavelet w x) k i j = w.getD k 0 * tget x k i j := by
  induction w generalizing x k with
  | nil => simp [applyWavelet, tget, List.getD]
  | cons r w ih =>
    cases x with
    | nil => simp [applyWavelet, tget, List.getD]
    | cons m x =>
      cases k with
      | zero =>
        simpa [applyWavelet, tget, List.getD] using mget_map (mul_zero r) m i j
      | succ k =>
        simpa [applyWavelet, tget, List.getD] using ih x k

theorem tget_npConjT (x : CTensor) (k i j : ℕ) :
    tget (npConjT x) k i j = (starRingEnd ℂ) (tget x k i j) := by
  unfold npConjT tget
  rcases h : x[k]? with _ | m
  · simp [List.getD_eq_getElem?_getD, List.getElem?_map, h]
  · simp [List.getD_eq_getElem?_getD, List.getElem?_map, h]
    simpa [List.getD_eq_getElem?_getD] using mget_map (by simp) m i j

theorem pySliceIdx_le (n : ℕ) (x : ℤ) : pySliceIdx n x ≤ n := by
  unfold pySliceIdx; omega

theorem sliceAssign_ok_length {α : Type} {l : List α} {a b : ℤ} {src out : List α}
    (h : sliceAssign l a b src = Except.ok out) : out.length = l.length := by
  unfold sliceAssign at h
  split at h
  · rename_i hlen
    cases h
    have hs := pySliceIdx_le l.length a
    have ht := pySliceIdx_le l.length b
    simp only [List.length_append, List.length_take, List.length_drop]
    omega
  · cases h

theorem reconstruct_ok_length {fl : List ℚ} {dataf s : CTensor}
    (h : reconstruct fl dataf = Except.ok s) : s.length = nfullOf fl := by
  unfold reconstruct at h
  split at h
  · cases h
  · split at h
    · cases h
    · split at h
      · cases h
      · split at h
        · cases h
        · rename_i dfft1 heq
          rw [sliceAssign_ok_length h, sliceAssign_ok_length heq,
            List.length_replicate]

theorem length_pyRoll {α : Type} (l : List α) (s : ℤ) :
    (pyRoll l s).length = l.length := by
  unfold pyRoll
  split
  · rfl
  · simp only [List.rotateLeft]
    split
    · rfl
    · simp only [List.length_append, List.length_drop, List.length_take]
      omega

theorem length_pyArange (a b : ℤ) : (pyArange a b).length = (b - a).toNat := by
  rw [pyArange, List.length_map, List.length_range]

theorem faxis_length (fl : List ℚ) : (faxisOf fl).length = nfullOf fl := by
  rw [faxisOf, List.length_map, length_pyRoll, length_pyArange, nfullOf]
  omega

theorem getD_range_map {α : Type} (f : ℕ → α) (N n : ℕ) (d : α) (h : n < N) :
    ((List.range N).map f).getD n d = f n := by
  simp [List.getD_eq_getElem?_getD, List.getElem?_map, List.getElem?_range, h]

theorem invTransform_tgetR (d : ℚ) (x : CTensor) {n i j : ℕ}
    (hn : n < x.length) (hi : i < (x.headD []).length)
    (hj : j < ((x.headD []).headD []).length) :
    tgetR (invTransform d x) n i j =
      -((((1 : ℂ) / (x.length : ℂ)) * (d : ℂ) *
        ∑ k ∈ Finset.range x.length, tget x k i j * dftKernel x.length k n).re) := by
  unfold invTransform tgetR
  rw [getD_range_map _ _ _ _ hn, getD_range_map _ _ _ _ hi, getD_range_map _ _ _ _ hj]

theorem freq2time_ok {fl : List ℚ} {dataf : CTensor} {fc d : ℚ} {out : H5Out}
    (h : freq2time fl dataf fc d = Except.ok out) :
    ∃ recon, reconstruct fl dataf = Except.ok recon ∧ fc ≠ 0 ∧
      out = { seismo := invTransform (dfreqOf fl)
                (applyWavelet (rickerDelay fc (d / fc) (faxisOf fl)) recon)
              fc := fc
              delay := d / fc
              spectrum := dataf
              seismo_spec := pySliceGet
                (applyWavelet (rickerDelay fc (d / fc) (faxisOf fl)) recon)
                (ind1Of fl) (ind2Of fl)
              freqlist := fl
              df := dfreqOf fl
              dt := 1 / dfreqOf fl / ((nfullOf fl : ℚ) - 1) } := by
  unfold freq2time at h
  split at h
  · cases h
  · rename_i datafft heq
    split at h
    · cases h
    · rename_i hfc
      refine ⟨datafft, heq, hfc, ?_⟩
      cases h
      rfl

/-! ## Correctness of `npArgmin` / `get_id` -/

theorem getD_lt_indexOf (l : List ℚ) (a : ℚ) :
    ∀ j, j < List.indexOf a l → l.getD j 0 ≠ a := by
  induction l with
  | nil => intro j hj; simp [List.indexOf] at hj
  | cons b t ih =>
    intro j hj
    rw [List.indexOf_cons] at hj
    by_cases hba : b = a
    · simp [hba] at hj
    · rw [show (b == a) = false from beq_eq_false_iff_ne.mpr hba] at hj
      simp only [cond_false] at hj
      cases j with
      | zero => simpa using hba
      | succ j => simpa using ih j (by omega)

/-- C7: `get_id(x, arr)` returns an in-range index minimising `|x - arr[i]|`,
and ties resolve to the first (smallest) such index. -/
theorem claim_C7 (x : ℚ) (arr : List ℚ) (h : arr ≠ []) :
    get_id x arr < arr.length ∧
    (∀ j, j < arr.length → |x - arr.getD (get_id x arr) 0| ≤ |x - arr.getD j 0|) ∧
    (∀ j, j < get_id x arr → |x - arr.getD (get_id x arr) 0| < |x - arr.getD j 0|) := by
  obtain ⟨a0, t, rfl⟩ : ∃ a0 t, arr = a0 :: t := by
    cases arr with
    | nil => exact absurd rfl h
    | cons a t => exact ⟨a, t, rfl⟩
  obtain ⟨m, hm⟩ : ∃ m, ((a0 :: t).map (fun a => |x - a|)).min? = some m := ⟨_, rfl⟩
  obtain ⟨hmem, hle⟩ :=
    (@List.min?_eq_some_iff ℚ m _ _ ⟨fun h1 h2 => le_antisymm h1 h2⟩
      le_refl min_choice (fun _ _ _ => le_min_iff) _).mp hm
  have hdlen : ((a0 :: t).map (fun a => |x - a|)).length = (a0 :: t).length :=
    List.length_map _ _
  have hidl : List.indexOf m ((a0 :: t).map (fun a => |x - a|)) <
      ((a0 :: t).map (fun a => |x - a|)).length := List.indexOf_lt_length.mpr hmem
  have hgid : get_id x (a0 :: t) = List.indexOf m ((a0 :: t).map (fun a => |x - a|)) := by
    simp only [get_id, npArgmin, hm]
  have hdj : ∀ j, j < (a0 :: t).length →
      ((a0 :: t).map (fun a => |x - a|)).getD j 0 = |x - (a0 :: t).getD j 0| := by
    intro j hj
    rw [List.getD_eq_getElem?_getD, List.getD_eq_getElem?_getD, List.getElem?_map,
      List.getElem?_eq_getElem hj]
    simp
  have hval : |x - (a0 :: t).getD (get_id x (a0 :: t)) 0| = m := by
    rw [← hdj _ (by omega), hgid, List.getD_eq_getElem _ _ hidl, List.getElem_indexOf]
  refine ⟨by omega, ?_, ?_⟩
  · intro j hj
    rw [hval, ← hdj j hj]
    exact hle _ (by rw [List.getD_eq_getElem _ _ (by omega)]; exact List.getElem_mem _)
  · intro j hj
    rw [hval, ← hdj j (by omega)]
    have hne : ((a0 :: t).map (fun a => |x - a|)).getD j 0 ≠ m :=
      getD_lt_indexOf _ m j (by omega)
    have hlej : m ≤ ((a0 :: t).map (fun a => |x - a|)).getD j 0 :=
      hle _ (by rw [List.getD_eq_getElem _ _ (by omega)]; exact List.getElem_mem _)
    exact lt_of_le_of_ne hlej (Ne.symm hne)

/-- Witness for C7 at `x = 4`, `arr = [1, 3, 5, 3]` (a tie between indices 1
and 3 at distance 1, resolved to index 1). -/
theorem claim_C7_wit :
    get_id 4 [1, 3, 5, 3] < ([1, 3, 5, 3] : List ℚ).length ∧
    (∀ j, j < ([1, 3, 5, 3] : List ℚ).length →
      |4 - ([1, 3, 5, 3] : List ℚ).getD (get_id 4 [1, 3, 5, 3]) 0| ≤
        |4 - ([1, 3, 5, 3] : List ℚ).getD j 0|) ∧
    (∀ j, j < get_id 4 [1, 3, 5, 3] →
      |4 - ([1, 3, 5, 3] : List ℚ).getD (get_id 4 [1, 3, 5, 3]) 0| <
        |4 - ([1, 3, 5, 3] : List ℚ).getD j 0|) :=
  claim_C7 4 [1, 3, 5, 3] (List.cons_ne_nil _ _)

/-- C9: `greenfunc2d` returns, at each listed frequency, `(i/4)·H₀⁽¹⁾(k·r)`
with `k = 2πf/v_complex`, `v_complex = vp·(1 - i/(2·qp))` and `r` the
Euclidean source-receiver distance; `hank` abstracts `scipy.special.hankel1`. -/
theorem claim_C9 (hank : ℕ → ℂ → ℂ) (xs zs xr zr : ℚ) (fl : List ℚ) (vp qp : ℚ) :
    greenfunc2d hank (xs, zs) (xr, zr) fl vp qp =
      fl.map (fun fq =>
        Complex.I / 4 * hank 0 (2 * (Real.pi : ℂ) * (fq : ℂ) /
          ((vp : ℂ) * (1 - Complex.I / (2 * (qp : ℂ)))) *
          ((Real.sqrt (((xs : ℝ) - (xr : ℝ)) ^ 2 + ((zs : ℝ) - (zr : ℝ)) ^ 2) : ℝ) : ℂ))) := by
  unfold greenfunc2d
  refine List.map_congr_left (fun fq _ => ?_)
  have e1 : ((xs - xr : ℚ) : ℝ) = (xs : ℝ) - (xr : ℝ) := by push_cast; ring
  have e2 : ((zs - zr : ℚ) : ℝ) = (zs : ℝ) - (zr : ℝ) := by push_cast; ring
  dsimp only
  rw [e1, e2, mul_comm]

/-! ## Uniform frequency lists `[c·Δf, (c+1)·Δf, …, (c+n-1)·Δf]` -/

/-- The uniformly spaced frequency list with `f_min = c·Δf` and `n` entries. -/
def progFL (c n : ℕ) (d : ℚ) : List ℚ :=
  (List.range n).map (fun i : ℕ => ((c + i : ℕ) : ℚ) * d)

theorem progFL_length (c n : ℕ) (d : ℚ) : (progFL c n d).length = n := by
  simp [progFL]

theorem progFL_getD (c n : ℕ) (d : ℚ) {i : ℕ} (hi : i < n) :
    (progFL c n d).getD i 0 = ((c + i : ℕ) : ℚ) * d := by
  rw [progFL]; exact getD_range_map _ _ _ _ hi

theorem progFL_dfreq (c n : ℕ) (d : ℚ) (hn : 2 ≤ n) : dfreqOf (progFL c n d) = d := by
  rw [dfreqOf, progFL_getD c n d (by omega), progFL_getD c n d (by omega)]
  push_cast
  ring

theorem progFL_fmax (c n : ℕ) (d : ℚ) (hd : 0 < d) (hn : 1 ≤ n) :
    fmaxOf (progFL c n d) = ((c + (n - 1) : ℕ) : ℚ) * d := by
  have hsome : (progFL c n d).max? = some (((c + (n - 1) : ℕ) : ℚ) * d) := by
    rw [@List.max?_eq_some_iff ℚ _ _ _ ⟨fun h1 h2 => le_antisymm h1 h2⟩
      le_refl max_choice (fun _ _ _ => max_le_iff) _]
    constructor
    · exact List.mem_map.mpr ⟨n - 1, List.mem_range.mpr (by omega), rfl⟩
    · intro b hb
      obtain ⟨i, hi, rfl⟩ := List.mem_map.mp hb
      have hi' : i < n := List.mem_range.mp hi
      exact mul_le_mul_of_nonneg_right (Nat.cast_le.mpr (by omega)) hd.le
  rw [fmaxOf, hsome, Option.getD_some]

theorem pyInt_natCast (k : ℕ) : pyInt (k : ℚ) = k := by
  rw [pyInt, if_pos (by positivity)]
  exact_mod_cast Int.floor_natCast k

theorem progFL_nhalf (c n : ℕ) (d : ℚ) (hd : 0 < d) (hn : 2 ≤ n) :
    nhalfOf (progFL c n d) = ((c + (n - 1) : ℕ) : ℤ) := by
  rw [nhalfOf, progFL_fmax c n d hd (by omega), progFL_dfreq c n d hn,
    mul_div_cancel_right₀ _ hd.ne']
  exact pyInt_natCast _

theorem progFL_ind1 (c n : ℕ) (d : ℚ) (hd : 0 < d) (hn : 2 ≤ n) :
    ind1Of (progFL c n d) = (c : ℤ) := by
  rw [ind1Of, progFL_dfreq c n d hn, progFL_getD c n d (by omega),
    mul_div_cancel_right₀ _ hd.ne']
  simpa using pyInt_natCast (c + 0)

theorem progFL_ind2 (c n : ℕ) (d : ℚ) (hd : 0 < d) (hn : 2 ≤ n) :
    ind2Of (progFL c n d) = ((c + n : ℕ) : ℤ) := by
  rw [ind2Of, progFL_nhalf c n d hd hn]
  push_cast
  omega

theorem progFL_nfull (c n : ℕ) (d : ℚ) (hd : 0 < d) (hn : 2 ≤ n) :
    nfullOf (progFL c n d) = 2 * (c + n) - 1 := by
  rw [nfullOf, progFL_nhalf c n d hd hn]
  omega

theorem pySliceIdx_nat (n k : ℕ) (h : k ≤ n) : pySliceIdx n (k : ℤ) = k := by
  unfold pySliceIdx
  rw [if_neg (by omega)]
  omega

theorem pySliceIdx_neg (n : ℕ) (x : ℤ) (h0 : x < 0) (h1 : 0 ≤ x + n) :
    pySliceIdx n x = (x + n).toNat := by
  unfold pySliceIdx
  rw [if_pos h0]
  omega

theorem sliceAssign_ok_eval {α : Type} {l src : List α} {a b : ℤ} {s t : ℕ}
    (hs : pySliceIdx l.length a = s) (ht : pySliceIdx l.length b = t)
    (hlen : src.length = t - s) :
    sliceAssign l a b src = Except.ok (l.take s ++ src ++ l.drop (s + (t - s))) := by
  rw [sliceAssign, hs, ht, if_pos hlen]

theorem sliceAssign_err_eval {α : Type} {l src : List α} {a b : ℤ} {s t : ℕ}
    (hs : pySliceIdx l.length a = s) (ht : pySliceIdx l.length b = t)
    (hlen : src.length ≠ t - s) :
    sliceAssign l a b src = Except.error NpError.broadcastMismatch := by
  rw [sliceAssign, hs, ht, if_neg hlen]

/-- The reconstructed layout `[0 ×c | dataf | conj(rev dataf) | 0 ×(c-1)]`. -/
def quadSpec (df : CTensor) (c : ℕ) : CTensor :=
  List.replicate c (zeroMat df) ++ df ++ npConjT df.reverse ++
    List.replicate (c - 1) (zeroMat df)

theorem length_npConjT (x : CTensor) : (npConjT x).length = x.length := by
  simp [npConjT]

/-- On a uniform frequency list with `f_min = c·Δf`, `c ≥ 2`, the
reconstruction of lines 125-130 succeeds and produces
`[0 ×c | dataf | conj(rev dataf) | 0 ×(c-1)]`. -/
theorem reconstruct_prog (c n : ℕ) (d : ℚ) (dataf : CTensor)
    (hd : 0 < d) (hc : 2 ≤ c) (hn : 2 ≤ n) (hlen : dataf.length = n) :
    reconstruct (progFL c n d) dataf = Except.ok (quadSpec dataf c) := by
  unfold quadSpec
  have hN := progFL_nfull c n d hd hn
  have hi1 := progFL_ind1 c n d hd hn
  have hi2 := progFL_ind2 c n d hd hn
  have hsa1 : sliceAssign (List.replicate (nfullOf (progFL c n d)) (zeroMat dataf))
      (ind1Of (progFL c n d)) (ind2Of (progFL c n d)) dataf =
      Except.ok (List.replicate c (zeroMat dataf) ++ dataf ++
        List.replicate (c + n - 1) (zeroMat dataf)) := by
    have hs : pySliceIdx (List.replicate (nfullOf (progFL c n d)) (zeroMat dataf)).length
        (ind1Of (progFL c n d)) = c := by
      rw [List.length_replicate, hN, hi1]
      exact pySliceIdx_nat _ _ (by omega)
    have ht : pySliceIdx (List.replicate (nfullOf (progFL c n d)) (zeroMat dataf)).length
        (ind2Of (progFL c n d)) = c + n := by
      rw [List.length_replicate, hN, hi2]
      exact pySliceIdx_nat _ _ (by omega)
    rw [sliceAssign_ok_eval hs ht (by omega)]
    rw [List.take_replicate, List.drop_replicate]
    have e1 : c ⊓ nfullOf (progFL c n d) = c := by rw [hN]; omega
    have e2 : nfullOf (progFL c n d) - (c + (c + n - c)) = c + n - 1 := by rw [hN]; omega
    rw [e1, e2]
  unfold reconstruct
  rw [if_neg (by rw [progFL_length]; omega)]
  rw [if_neg (by rw [progFL_dfreq c n d hn]; exact hd.ne')]
  rw [if_neg (by rw [progFL_nhalf c n d hd hn]; push_cast; omega)]
  simp only [hsa1]
  have hXlen : (List.replicate c (zeroMat dataf) ++ dataf ++
      List.replicate (c + n - 1) (zeroMat dataf)).length = 2 * (c + n) - 1 := by
    simp only [List.length_append, List.length_replicate, hlen]
    omega
  have hs2 : pySliceIdx (List.replicate c (zeroMat dataf) ++ dataf ++
      List.replicate (c + n - 1) (zeroMat dataf)).length (ind2Of (progFL c n d)) = c + n := by
    rw [hXlen, hi2]
    exact pySliceIdx_nat _ _ (by omega)
  have ht2 : pySliceIdx (List.replicate c (zeroMat dataf) ++ dataf ++
      List.replicate (c + n - 1) (zeroMat dataf)).length (-ind1Of (progFL c n d) + 1) =
      c + 2 * n := by
    rw [hXlen, hi1, pySliceIdx_neg _ _ (by omega) (by omega)]
    omega
  rw [sliceAssign_ok_eval hs2 ht2 (by simp [npConjT, hlen]; omega)]
  have htake : (List.replicate c (zeroMat dataf) ++ dataf ++
      List.replicate (c + n - 1) (zeroMat dataf)).take (c + n) =
      List.replicate c (zeroMat dataf) ++ dataf := by
    rw [List.take_append_of_le_length (by simp [hlen])]
    exact List.take_of_length_le (by simp [hlen])
  have hdrop : (List.replicate c (zeroMat dataf) ++ dataf ++
      List.replicate (c + n - 1) (zeroMat dataf)).drop ((c + n) + (c + 2 * n - (c + n))) =
      List.replicate (c - 1) (zeroMat dataf) := by
    have e : (c + n) + (c + 2 * n - (c + n)) =
        (List.replicate c (zeroMat dataf) ++ dataf).length + n := by
      simp [hlen]
      omega
    rw [e, List.drop_append, List.drop_replicate]
    congr 1
    omega
  rw [htake, hdrop]

theorem getD_replicate_of_lt {α : Type} (a d : α) {n k : ℕ} (h : k < n) :
    (List.replicate n a).getD k d = a := by
  rw [List.getD_eq_getElem?_getD, List.getElem?_replicate, if_pos h, Option.getD_some]

theorem getD_replicate_of_ge {α : Type} (a d : α) {n k : ℕ} (h : n ≤ k) :
    (List.replicate n a).getD k d = d := by
  rw [List.getD_eq_getElem?_getD, List.getElem?_replicate, if_neg (by omega)]
  rfl

theorem mget_zeroMat (df : CTensor) (i j : ℕ) :
    ((zeroMat df).getD i []).getD j 0 = 0 := by
  rw [zeroMat]
  rcases Nat.lt_or_ge i (df.headD []).length with hi | hi
  · rw [getD_replicate_of_lt _ _ hi]
    rcases Nat.lt_or_ge j ((df.headD []).headD []).length with hj | hj
    · rw [getD_replicate_of_lt _ _ hj]
    · rw [getD_replicate_of_ge _ _ hj]
  · rw [getD_replicate_of_ge _ _ hi]
    rfl

theorem tget_reverse (X : CTensor) {m : ℕ} (hm : m < X.length) (i j : ℕ) :
    tget X.reverse m i j = tget X (X.length - 1 - m) i j := by
  have e : X.reverse.getD m [] = X.getD (X.length - 1 - m) [] := by
    rw [List.getD_eq_getElem?_getD, List.getD_eq_getElem?_getD,
      List.getElem?_reverse hm]
  unfold tget
  rw [e]

theorem tget_quadSpec_zero_lo (df : CTensor) (c : ℕ) {k : ℕ} (hk : k < c) (i j : ℕ) :
    tget (quadSpec df c) k i j = 0 := by
  unfold quadSpec tget
  rw [List.getD_append _ _ _ k (by simp [length_npConjT]; omega)]
  rw [List.getD_append _ _ _ k (by simp; omega)]
  rw [List.getD_append _ _ _ k (by simp; omega)]
  rw [getD_replicate_of_lt _ _ hk]
  exact mget_zeroMat df i j

theorem tget_quadSpec_data (df : CTensor) (c : ℕ) {k : ℕ} (h1 : c ≤ k)
    (h2 : k < c + df.length) (i j : ℕ) :
    tget (quadSpec df c) k i j = tget df (k - c) i j := by
  unfold quadSpec tget
  rw [List.getD_append _ _ _ k (by simp [length_npConjT]; omega)]
  rw [List.getD_append _ _ _ k (by simp; omega)]
  rw [List.getD_append_right _ _ _ k (by simp; omega)]
  simp only [List.length_replicate]

theorem tget_quadSpec_conj (df : CTensor) (c : ℕ) {k : ℕ} (h1 : c + df.length ≤ k)
    (h2 : k < c + 2 * df.length) (i j : ℕ) :
    tget (quadSpec df c) k i j =
      (starRingEnd ℂ) (tget df (c + 2 * df.length - 1 - k) i j) := by
  unfold quadSpec tget
  rw [List.getD_append _ _ _ k (by simp [length_npConjT]; omega)]
  rw [List.getD_append_right _ _ _ k (by simp; omega)]
  simp only [List.length_append, List.length_replicate]
  have hm : k - (c + df.length) < df.length := by omega
  change tget (npConjT df.reverse) (k - (c + df.length)) i j = _
  rw [tget_npConjT, tget_reverse df hm]
  have he : df.length - 1 - (k - (c + df.length)) = c + 2 * df.length - 1 - k := by omega
  rw [he]
  rfl

theorem tget_quadSpec_zero_hi (df : CTensor) (c : ℕ) {k : ℕ}
    (h1 : c + 2 * df.length ≤ k) (i j : ℕ) :
    tget (quadSpec df c) k i j = 0 := by
  unfold quadSpec tget
  rw [List.getD_append_right _ _ _ k (by simp [length_npConjT]; omega)]
  simp only [List.length_append, List.length_replicate, length_npConjT, List.length_reverse]
  rcases Nat.lt_or_ge (k - (c + df.length + df.length)) (c - 1) with h | h
  · rw [getD_replicate_of_lt _ _ h]
    exact mget_zeroMat df i j
  · rw [getD_replicate_of_ge _ _ h]
    rfl

/-- C2 (amended): for an input spectrum over `[f_min, f_max]` uniformly spaced
by `Δf` with `f_min = c·Δf` for an integer `c ≥ 2` — the claim as stated also
allowed `c = 1`, where the code instead raises (see the counterexample) — the
reconstruction succeeds and the full-length array satisfies
`full[N-k] = conj(full[k])` (Python's `full[-k]`) for every index `1 ≤ k < N`,
for every source/receiver position, and every bin below `f_min` is zero. -/
theorem claim_C2 (c n : ℕ) (d : ℚ) (dataf : CTensor)
    (hd : 0 < d) (hc : 2 ≤ c) (hn : 2 ≤ n) (hlen : dataf.length = n) :
    ∃ s, reconstruct (progFL c n d) dataf = Except.ok s ∧
      (∀ k i j, 1 ≤ k → k < 2 * (c + n) - 1 →
        tget s (2 * (c + n) - 1 - k) i j = (starRingEnd ℂ) (tget s k i j)) ∧
      (∀ k i j, k < c → tget s k i j = 0) := by
  refine ⟨quadSpec dataf c, reconstruct_prog c n d dataf hd hc hn hlen, ?_, ?_⟩
  · intro k i j hk1 hk2
    by_cases hA : k < c
    · have e1 : tget (quadSpec dataf c) (2 * (c + n) - 1 - k) i j = 0 :=
        tget_quadSpec_zero_hi dataf c (by omega) i j
      have e2 : tget (quadSpec dataf c) k i j = 0 :=
        tget_quadSpec_zero_lo dataf c (by omega) i j
      rw [e1, e2, map_zero]
    · by_cases hB : k < c + n
      · have e1 : tget (quadSpec dataf c) (2 * (c + n) - 1 - k) i j =
            (starRingEnd ℂ) (tget dataf (c + 2 * dataf.length - 1 - (2 * (c + n) - 1 - k)) i j) :=
          tget_quadSpec_conj dataf c (by omega) (by omega) i j
      
        have e2 : tget (quadSpec dataf c) k i j = tget dataf (k - c) i j :=
          tget_quadSpec_data dataf c (by omega) (by omega) i j
        rw [e1, e2]
        have he : c + 2 * dataf.length - 1 - (2 * (c + n) - 1 - k) = k - c := by omega
        rw [he]
      · by_cases hC : k < c + 2 * n
        · have e1 : tget (quadSpec dataf c) (2 * (c + n) - 1 - k) i j =
              tget dataf (2 * (c + n) - 1 - k - c) i j :=
            tget_quadSpec_data dataf c (by omega) (by omega) i j
          have e2 : tget (quadSpec dataf c) k i j =
              (starRingEnd ℂ) (tget dataf (c + 2 * dataf.length - 1 - k) i j) :=
            tget_quadSpec_conj dataf c (by omega) (by omega) i j
          rw [e1, e2, Complex.conj_conj]
          have he : 2 * (c + n) - 1 - k - c = c + 2 * dataf.length - 1 - k := by omega
          rw [he]
        · have e1 : tget (quadSpec dataf c) (2 * (c + n) - 1 - k) i j = 0 :=
            tget_quadSpec_zero_lo dataf c (by omega) i j
          have e2 : tget (quadSpec dataf c) k i j = 0 :=
            tget_quadSpec_zero_hi dataf c (by omega) i j
          rw [e1, e2, map_zero]
  · intro k i j hk
    exact tget_quadSpec_zero_lo dataf c hk i j

/-- Witness for the amended C2 at `Δf = 5`, `c = 2`, `n = 2`
(`freqlist = [10, 15]`) and a concrete 1×1 spectrum. -/
theorem claim_C2_wit :
    ∃ s, reconstruct (progFL 2 2 5) [[[1]], [[Complex.I]]] = Except.ok s ∧
      (∀ k i j, 1 ≤ k → k < 2 * (2 + 2) - 1 →
        tget s (2 * (2 + 2) - 1 - k) i j = (starRingEnd ℂ) (tget s k i j)) ∧
      (∀ k i j, k < 2 → tget s k i j = 0) :=
  claim_C2 2 2 5 [[[1]], [[Complex.I]]] (by norm_num) (by norm_num) (by norm_num) rfl

/-- On a uniform frequency list with `f_min = Δf` (`ind1 = 1`) the second
slice assignment of line 130 targets `datafft[ind2:0]`, the empty slice, and
numpy raises a broadcast error: `-ind1+1 = 0` is not interpreted as
"end of array" by Python slicing. -/
theorem reconstruct_prog_one_err (n : ℕ) (d : ℚ) (dataf : CTensor)
    (hd : 0 < d) (hn : 2 ≤ n) (hlen : dataf.length = n) :
    reconstruct (progFL 1 n d) dataf = Except.error NpError.broadcastMismatch := by
  have hN := progFL_nfull 1 n d hd hn
  have hi1 := progFL_ind1 1 n d hd hn
  have hi2 := progFL_ind2 1 n d hd hn
  unfold reconstruct
  rw [if_neg (by rw [progFL_length]; omega)]
  rw [if_neg (by rw [progFL_dfreq 1 n d hn]; exact hd.ne')]
  rw [if_neg (by rw [progFL_nhalf 1 n d hd hn]; push_cast; omega)]
  have hs : pySliceIdx (List.replicate (nfullOf (progFL 1 n d)) (zeroMat dataf)).length
      (ind1Of (progFL 1 n d)) = 1 := by
    rw [List.length_replicate, hN, hi1]
    exact pySliceIdx_nat _ _ (by omega)
  have ht : pySliceIdx (List.replicate (nfullOf (progFL 1 n d)) (zeroMat dataf)).length
      (ind2Of (progFL 1 n d)) = 1 + n := by
    rw [List.length_replicate, hN, hi2]
    exact pySliceIdx_nat _ _ (by omega)
  have hsa1 := sliceAssign_ok_eval hs ht (by rw [hlen]; omega)
  simp only [hsa1]
  have hXlen := sliceAssign_ok_length hsa1
  have hs2 : pySliceIdx (List.take 1 (List.replicate (nfullOf (progFL 1 n d)) (zeroMat dataf)) ++
      dataf ++ List.drop (1 + (1 + n - 1)) (List.replicate (nfullOf (progFL 1 n d))
        (zeroMat dataf))).length (ind2Of (progFL 1 n d)) = 1 + n := by
    rw [hXlen, List.length_replicate, hN, hi2]
    exact pySliceIdx_nat _ _ (by omega)
  have ht2 : pySliceIdx (List.take 1 (List.replicate (nfullOf (progFL 1 n d)) (zeroMat dataf)) ++
      dataf ++ List.drop (1 + (1 + n - 1)) (List.replicate (nfullOf (progFL 1 n d))
        (zeroMat dataf))).length (-ind1Of (progFL 1 n d) + 1) = 0 := by
    rw [hXlen, List.length_replicate, hN, hi1, pySliceIdx]
    rw [if_neg (by norm_num)]
    omega
  exact sliceAssign_err_eval hs2 ht2 (by rw [length_npConjT, List.length_reverse, hlen]; omega)

/-- The spec's end-to-end frequency list `[5, 10, 15, 20]` is the uniform list
with `Δf = 5` and `f_min = 1·Δf`. -/
theorem progFL_c1 : progFL 1 4 5 = [5, 10, 15, 20] := by
  have hr : List.range 4 = [0, 1, 2, 3] := rfl
  rw [progFL, hr]
  norm_num

theorem progFL_c2 : progFL 1 4 3 = [3, 6, 9, 12] := by
  have hr : List.range 4 = [0, 1, 2, 3] := rfl
  rw [progFL, hr]
  norm_num

/-- C1: on the spec's end-to-end scenario (`freqlist = [5,10,15,20]`,
a unit-impulse spectrum at every recorded bin, `fc = 100`,
`delay_n_period = 10` so `delay = 0.1`), `freq2time` does **not** complete:
`ind1 = 1`, so line 130 assigns a 4-row source into the empty slice
`datafft[5:0]` and numpy raises a broadcast ValueError.  The claim (and the
spec's §8 scenario) say it must produce a length-9 trace, so this is a bug in
the code: the intended end bound is `N-ind1+1`, and `-ind1+1` fails exactly
at `ind1 = 1`. -/
theorem claim_C1 :
    freq2time [5, 10, 15, 20] (List.replicate 4 [[1]]) 100 10 =
      Except.error NpError.broadcastMismatch := by
  have hrec : reconstruct [5, 10, 15, 20] (List.replicate 4 [[1]]) =
      Except.error NpError.broadcastMismatch := by
    rw [← progFL_c1]
    exact reconstruct_prog_one_err 4 5 _ (by norm_num) (by norm_num) (by simp)
  unfold freq2time
  simp only [hrec]

/-- C2 counterexample: with `freqlist = [3, 6, 9, 12]` (uniformly spaced,
`f_min = Δf = 3`, a positive integer multiple of `Δf`) and a well-shaped
input spectrum, the reconstruction raises instead of producing a
conjugate-symmetric full spectrum, so the claim fails for `f_min = Δf`. -/
theorem claim_C2_cex :
    reconstruct [3, 6, 9, 12] (List.replicate 4 [[1]]) =
      Except.error NpError.broadcastMismatch := by
  rw [← progFL_c2]
  exact reconstruct_prog_one_err 4 3 _ (by norm_num) (by norm_num) (by simp)

theorem reconstruct_ok_guard {fl : List ℚ} {dataf s : CTensor}
    (h : reconstruct fl dataf = Except.ok s) : ¬ 1 + 2 * nhalfOf fl ≤ 0 := by
  unfold reconstruct at h
  split at h
  · cases h
  · split at h
    · cases h
    · split at h
      · cases h
      · rename_i hg
        exact hg

/-- C3 (amended): whenever the reconstruction succeeds, the full-spectrum
length is `N = 1 + 2·int(f_max/Δf)` — Python `int()` truncates toward zero
(the claim said `round`; the two agree exactly when `f_max/Δf` is an
integer, e.g. when `f_min` is an integer multiple of `Δf`) — and `N` is
always odd. -/
theorem claim_C3 {fl : List ℚ} {dataf s : CTensor}
    (h : reconstruct fl dataf = Except.ok s) :
    s.length = (1 + 2 * pyInt (fmaxOf fl / dfreqOf fl)).toNat ∧ Odd s.length := by
  have h1 : s.length = nfullOf fl := reconstruct_ok_length h
  have hg := reconstruct_ok_guard h
  constructor
  · rw [h1, nfullOf, nhalfOf]
  · rw [h1, nfullOf, Nat.odd_iff]
    omega

/-- Witness for the amended C3 at `freqlist = [10, 15, 20]`. -/
theorem claim_C3_wit :
    ∃ s, reconstruct [10, 15, 20] (List.replicate 3 [[1]]) = Except.ok s ∧
      s.length = (1 + 2 * pyInt (fmaxOf [10, 15, 20] / dfreqOf [10, 15, 20])).toNat ∧
      Odd s.length := by
  have hfl : progFL 2 3 5 = [10, 15, 20] := by
    have hr : List.range 3 = [0, 1, 2] := rfl
    rw [progFL, hr]
    norm_num
  have hrec : reconstruct [10, 15, 20] (List.replicate 3 [[1]]) =
      Except.ok (quadSpec (List.replicate 3 [[1]]) 2) := by
    rw [← hfl]
    exact reconstruct_prog 2 3 5 _ (by norm_num) (by norm_num) (by norm_num) (by simp)
  exact ⟨_, hrec, claim_C3 hrec⟩

/-- C3 counterexample: `freqlist = [12.5, 17.5]` is uniformly spaced with
`Δf = 5` and `f_max = 17.5`; the code builds a full spectrum of length
`1 + 2·int(3.5) = 7`, but `1 + 2·round(3.5) = 9`. -/
theorem claim_C3_cex :
    (∃ s, reconstruct [25 / 2, 35 / 2] [[[1]], [[0]]] = Except.ok s ∧ s.length = 7) ∧
    (7 : ℕ) ≠ (1 + 2 * round (fmaxOf [25 / 2, 35 / 2] / dfreqOf [25 / 2, 35 / 2])).toNat := by
  have he1 : dfreqOf [25 / 2, 35 / 2] = 5 := by
    rw [dfreqOf]
    norm_num [List.getD_cons_succ, List.getD_cons_zero]
  have he2 : fmaxOf [25 / 2, 35 / 2] = 35 / 2 := by
    rw [fmaxOf, show ([25 / 2, 35 / 2] : List ℚ).max? = some (max (25 / 2) (35 / 2)) from rfl,
      Option.getD_some]
    norm_num [max_def]
  have he3 : nhalfOf [25 / 2, 35 / 2] = 3 := by
    rw [nhalfOf, he2, he1, pyInt, if_pos (by norm_num)]
    norm_num
  have he4 : ind1Of [25 / 2, 35 / 2] = 2 := by
    rw [ind1Of, he1, show ([25 / 2, 35 / 2] : List ℚ).getD 0 0 = 25 / 2 from rfl,
      pyInt, if_pos (by norm_num)]
    norm_num
  have he5 : nfullOf [25 / 2, 35 / 2] = 7 := by rw [nfullOf, he3]; rfl
  have he6 : ind2Of [25 / 2, 35 / 2] = 4 := by rw [ind2Of, he3]; rfl
  have hs : pySliceIdx (List.replicate (nfullOf [25 / 2, 35 / 2])
      (zeroMat [[[1]], [[0]]])).length (ind1Of [25 / 2, 35 / 2]) = 2 := by
    rw [List.length_replicate, he5, he4]
    decide
  have ht : pySliceIdx (List.replicate (nfullOf [25 / 2, 35 / 2])
      (zeroMat [[[1]], [[0]]])).length (ind2Of [25 / 2, 35 / 2]) = 4 := by
    rw [List.length_replicate, he5, he6]
    decide
  have hsa1 := sliceAssign_ok_eval hs ht
    (show ([[[1]], [[0]]] : CTensor).length = 4 - 2 by simp)
  have hXlen := sliceAssign_ok_length hsa1
  have hs2 : pySliceIdx (List.take 2 (List.replicate (nfullOf [25 / 2, 35 / 2])
      (zeroMat [[[1]], [[0]]])) ++ [[[1]], [[0]]] ++
      List.drop (2 + (4 - 2)) (List.replicate (nfullOf [25 / 2, 35 / 2])
        (zeroMat [[[1]], [[0]]]))).length (ind2Of [25 / 2, 35 / 2]) = 4 := by
    rw [hXlen, List.length_replicate, he5, he6]
    decide
  have ht2 : pySliceIdx (List.take 2 (List.replicate (nfullOf [25 / 2, 35 / 2])
      (zeroMat [[[1]], [[0]]])) ++ [[[1]], [[0]]] ++
      List.drop (2 + (4 - 2)) (List.replicate (nfullOf [25 / 2, 35 / 2])
        (zeroMat [[[1]], [[0]]]))).length (-ind1Of [25 / 2, 35 / 2] + 1) = 6 := by
    rw [hXlen, List.length_replicate, he5, he4]
    decide
  have hsa2 := sliceAssign_ok_eval hs2 ht2
    (show (npConjT ([[[1]], [[0]]] : CTensor).reverse).length = 6 - 4 by
      simp [length_npConjT])
  constructor
  · unfold reconstruct
    rw [if_neg (by simp), if_neg (by rw [he1]; norm_num), if_neg (by rw [he3]; norm_num)]
    simp only [hsa1]
    refine ⟨_, hsa2, ?_⟩
    rw [sliceAssign_ok_length hsa2, hXlen, List.length_replicate, he5]
  · rw [he2, he1]
    norm_num [round_eq]
    decide

theorem invTransform_length (d : ℚ) (x : CTensor) :
    (invTransform d x).length = x.length := by
  simp [invTransform]

theorem applyWavelet_length (w : List ℂ) (x : CTensor) :
    (applyWavelet w x).length = min w.length x.length := by
  simp [applyWavelet]

/-- C6: whenever `freq2time` succeeds, the stored time-sample spacing is
`dt = 1/(Δf·(N-1))` where `N` is the number of time samples (= the
full-spectrum length) and `Δf` the stored frequency spacing. -/
theorem claim_C6 {fl : List ℚ} {dataf : CTensor} {fc d : ℚ} {out : H5Out}
    (h : freq2time fl dataf fc d = Except.ok out) :
    out.dt = 1 / (out.df * ((out.seismo.length : ℚ) - 1)) := by
  obtain ⟨recon, hrec, hfc, rfl⟩ := freq2time_ok h
  dsimp only
  have hlen : (invTransform (dfreqOf fl)
      (applyWavelet (rickerDelay fc (d / fc) (faxisOf fl)) recon)).length = nfullOf fl := by
    rw [invTransform_length, applyWavelet_length, rickerDelay, List.length_map,
      faxis_length, reconstruct_ok_length hrec, min_self]
  rw [hlen, div_div]

/-- Witness for C6 at `freqlist = [10, 15, 20]`, a 1×1 all-ones spectrum,
`fc = 100`, `delay_n_period = 10`. -/
theorem claim_C6_wit :
    ∃ out, freq2time [10, 15, 20] (List.replicate 3 [[1]]) 100 10 = Except.ok out ∧
      out.dt = 1 / (out.df * ((out.seismo.length : ℚ) - 1)) := by
  have hfl : progFL 2 3 5 = [10, 15, 20] := by
    have hr : List.range 3 = [0, 1, 2] := rfl
    rw [progFL, hr]
    norm_num
  have hrec : reconstruct [10, 15, 20] (List.replicate 3 [[1]]) =
      Except.ok (quadSpec (List.replicate 3 [[1]]) 2) := by
    rw [← hfl]
    exact reconstruct_prog 2 3 5 _ (by norm_num) (by norm_num) (by norm_num) (by simp)
  obtain ⟨out, hout⟩ : ∃ out, freq2time [10, 15, 20] (List.replicate 3 [[1]]) 100 10 =
      Except.ok out := by
    unfold freq2time
    simp only [hrec]
    rw [if_neg (by norm_num)]
    exact ⟨_, rfl⟩
  exact ⟨out, hout, claim_C6 hout⟩

/-- The source-wavelet spectrum exactly as the spec words it:
`W(f) = (2/√π)·f²/fc³·exp(−(f/fc)² + i·2π·f·delay)`. -/
noncomputable def rickerSpecW (fc delay f : ℚ) : ℂ :=
  ((2 / Real.sqrt Real.pi : ℝ) : ℂ) * (f : ℂ) ^ 2 / (fc : ℂ) ^ 3 *
    Complex.exp (-((f : ℂ) / (fc : ℂ)) ^ 2 +
      Complex.I * (2 * (Real.pi : ℂ)) * (f : ℂ) * (delay : ℂ))

theorem rickerTerm_eq_spec (fc delay f : ℚ) :
    rickerTerm fc delay f = rickerSpecW fc delay f := by
  unfold rickerTerm rickerSpecW
  have harg : -((f : ℂ) / (fc : ℂ)) ^ 2 +
      Complex.I * 2 * (Real.pi : ℂ) * (f : ℂ) * (delay : ℂ) =
      -((f : ℂ) / (fc : ℂ)) ^ 2 +
      Complex.I * (2 * (Real.pi : ℂ)) * (f : ℂ) * (delay : ℂ) := by ring
  rw [harg]
  congr 1
  push_cast
  ring

/-- C5: the wavelet vector built by `freq2time` (with `delay = delay_n_period/fc`)
is exactly `W(f)` from the spec evaluated on the rolled frequency axis, and
the reconstructed spectrum is multiplied elementwise by it: entry `(k,i,j)`
of the convolved tensor is `W(f_k)` times entry `(k,i,j)` of the input, for
every source/receiver pair. -/
theorem claim_C5 (fc delayNP : ℚ) (fl : List ℚ) (x : CTensor) (k i j : ℕ)
    (hk : k < (faxisOf fl).length) :
    rickerDelay fc (delayNP / fc) (faxisOf fl) =
      (faxisOf fl).map (rickerSpecW fc (delayNP / fc)) ∧
    tget (applyWavelet (rickerDelay fc (delayNP / fc) (faxisOf fl)) x) k i j =
      rickerSpecW fc (delayNP / fc) ((faxisOf fl).getD k 0) * tget x k i j := by
  constructor
  · rw [rickerDelay]
    exact List.map_congr_left (fun a _ => rickerTerm_eq_spec fc (delayNP / fc) a)
  · rw [tget_applyWavelet]
    congr 1
    rw [rickerDelay, List.getD_eq_getElem?_getD, List.getElem?_map,
      List.getElem?_eq_getElem hk, List.getD_eq_getElem _ _ hk]
    simp [rickerTerm_eq_spec]

/-- Witness for C5 at `freqlist = [10, 15]`, `fc = 100`, `delay_n_period = 10`,
`k = i = j = 0` on a 1×1 spectrum. -/
theorem claim_C5_wit :
    rickerDelay 100 (10 / 100) (faxisOf [10, 15]) =
      (faxisOf [10, 15]).map (rickerSpecW 100 (10 / 100)) ∧
    tget (applyWavelet (rickerDelay 100 (10 / 100) (faxisOf [10, 15])) [[[1]]]) 0 0 0 =
      rickerSpecW 100 (10 / 100) ((faxisOf [10, 15]).getD 0 0) * tget [[[1]]] 0 0 0 := by
  have hfl : progFL 2 2 5 = [10, 15] := by
    have hr : List.range 2 = [0, 1] := rfl
    rw [progFL, hr]
    norm_num
  have hk : 0 < (faxisOf [10, 15]).length := by
    rw [faxis_length, ← hfl, progFL_nfull 2 2 5 (by norm_num) (by norm_num)]
    norm_num
  exact claim_C5 100 10 [10, 15] [[[1]]] 0 0 0 hk

/-! ## Linearity in the input spectrum (C8) -/

/-- Scaling of one (src × rec) matrix by a real constant. -/
noncomputable def scaleM (c : ℝ) (m : List (List ℂ)) : List (List ℂ) :=
  m.map (fun row => row.map (fun v => (c : ℂ) * v))

/-- Scaling of a complex spectrum tensor by a real constant. -/
noncomputable def tscale (c : ℝ) (x : CTensor) : CTensor := x.map (scaleM c)

/-- Scaling of a real time-trace tensor by a real constant. -/
def tscaleR (c : ℝ) (x : RTensor) : RTensor :=
  x.map (fun m => m.map (fun row => row.map (fun v => c * v)))

theorem scaleM_zeroMat (c : ℝ) (df : CTensor) : scaleM c (zeroMat df) = zeroMat df := by
  simp [scaleM, zeroMat, List.map_replicate]

theorem zeroMat_tscale (c : ℝ) (df : CTensor) : zeroMat (tscale c df) = zeroMat df := by
  unfold zeroMat tscale
  cases df with
  | nil => rfl
  | cons m x =>
    cases m with
    | nil => rfl
    | cons row m' => simp [scaleM]

theorem sliceAssign_map {α β : Type} (f : α → β) (l src : List α) (a b : ℤ) :
    sliceAssign (l.map f) a b (src.map f) =
      Except.map (List.map f) (sliceAssign l a b src) := by
  unfold sliceAssign
  simp only [List.length_map]
  split
  · simp [Except.map, List.map_append, List.map_take, List.map_drop]
  · rfl

theorem npConjT_tscale (c : ℝ) (x : CTensor) :
    npConjT (tscale c x) = tscale c (npConjT x) := by
  unfold npConjT tscale scaleM
  rw [List.map_map, List.map_map]
  refine List.map_congr_left (fun m _ => ?_)
  dsimp only [Function.comp]
  rw [List.map_map, List.map_map]
  refine List.map_congr_left (fun row _ => ?_)
  dsimp only [Function.comp]
  rw [List.map_map, List.map_map]
  refine List.map_congr_left (fun v _ => ?_)
  dsimp only [Function.comp]
  rw [map_mul, Complex.conj_ofReal]

theorem reconstruct_tscale (c : ℝ) (fl : List ℚ) (df : CTensor) :
    reconstruct fl (tscale c df) = Except.map (tscale c) (reconstruct fl df) := by
  have hmap1 : sliceAssign (List.replicate (nfullOf fl) (zeroMat (tscale c df)))
      (ind1Of fl) (ind2Of fl) (tscale c df) =
      Except.map (List.map (scaleM c))
        (sliceAssign (List.replicate (nfullOf fl) (zeroMat df))
          (ind1Of fl) (ind2Of fl) df) := by
    conv_lhs =>
      rw [zeroMat_tscale,
        show List.replicate (nfullOf fl) (zeroMat df) =
          (List.replicate (nfullOf fl) (zeroMat df)).map (scaleM c) from by
            rw [List.map_replicate, scaleM_zeroMat]]
    exact sliceAssign_map (scaleM c) _ df _ _
  unfold reconstruct
  by_cases h1 : fl.length < 2
  · rw [if_pos h1, if_pos h1]; rfl
  · rw [if_neg h1, if_neg h1]
    by_cases h2 : dfreqOf fl = 0
    · rw [if_pos h2, if_pos h2]; rfl
    · rw [if_neg h2, if_neg h2]
      by_cases h3 : 1 + 2 * nhalfOf fl ≤ 0
      · rw [if_pos h3, if_pos h3]; rfl
      · rw [if_neg h3, if_neg h3]
        rcases hr1 : sliceAssign (List.replicate (nfullOf fl) (zeroMat df))
            (ind1Of fl) (ind2Of fl) df with e | d1
        · rw [hmap1, hr1]
          rfl
        · rw [hmap1, hr1]
          show sliceAssign (d1.map (scaleM c)) (ind2Of fl) (-ind1Of fl + 1)
              (npConjT (tscale c df).reverse) = _
          have hsrc : npConjT (tscale c df).reverse = (npConjT df.reverse).map (scaleM c) := by
            show npConjT ((df.map (scaleM c)).reverse) = _
            rw [← List.map_reverse]
            exact npConjT_tscale c df.reverse
          rw [hsrc, sliceAssign_map]
          rfl

theorem applyWavelet_tscale (c : ℝ) (w : List ℂ) (x : CTensor) :
    applyWavelet w (tscale c x) = tscale c (applyWavelet w x) := by
  induction w generalizing x with
  | nil => simp [applyWavelet, tscale]
  | cons r w ih =>
    cases x with
    | nil => simp [applyWavelet, tscale]
    | cons m x =>
      have hm : (scaleM c m).map (fun row => row.map (fun v => r * v)) =
          scaleM c (m.map (fun row => row.map (fun v => r * v))) := by
        unfold scaleM
        rw [List.map_map, List.map_map]
        refine List.map_congr_left (fun row _ => ?_)
        dsimp only [Function.comp]
        rw [List.map_map, List.map_map]
        refine List.map_congr_left (fun v _ => ?_)
        dsimp only [Function.comp]
        ring
      rw [show tscale c (m :: x) = scaleM c m :: tscale c x from rfl]
      rw [show applyWavelet (r :: w) (scaleM c m :: tscale c x) =
          (scaleM c m).map (fun row => row.map (fun v => r * v)) ::
            applyWavelet w (tscale c x) from rfl]
      rw [show applyWavelet (r :: w) (m :: x) =
          m.map (fun row => row.map (fun v => r * v)) :: applyWavelet w x from rfl]
      rw [hm, ih x]
      rfl

theorem getD_tensor_map (g : List (List ℂ) → List (List ℂ)) (hg : g [] = [])
    (x : CTensor) (k : ℕ) : (x.map g).getD k [] = g (x.getD k []) := by
  rcases h : x[k]? with _ | m
  · simp [List.getD_eq_getElem?_getD, List.getElem?_map, h, hg]
  · simp [List.getD_eq_getElem?_getD, List.getElem?_map, h]

theorem tget_tscale (c : ℝ) (x : CTensor) (k i j : ℕ) :
    tget (tscale c x) k i j = (c : ℂ) * tget x k i j := by
  unfold tscale tget
  rw [getD_tensor_map (scaleM c) rfl]
  exact mget_map (mul_zero ((c : ℝ) : ℂ)) _ i j

theorem tscale_length (c : ℝ) (x : CTensor) : (tscale c x).length = x.length := by
  simp [tscale]

theorem tscale_dims1 (c : ℝ) (x : CTensor) :
    ((tscale c x).headD []).length = (x.headD []).length := by
  cases x with
  | nil => rfl
  | cons m x => simp [tscale, scaleM]

theorem tscale_dims2 (c : ℝ) (x : CTensor) :
    (((tscale c x).headD []).headD []).length = ((x.headD []).headD []).length := by
  cases x with
  | nil => rfl
  | cons m x =>
    cases m with
    | nil => rfl
    | cons row m' => simp [tscale, scaleM]

theorem invTransform_tscale (c : ℝ) (d : ℚ) (x : CTensor) :
    invTransform d (tscale c x) = tscaleR c (invTransform d x) := by
  unfold invTransform tscaleR
  rw [tscale_length, tscale_dims1, tscale_dims2, List.map_map]
  refine List.map_congr_left (fun n _ => ?_)
  dsimp only [Function.comp]
  rw [List.map_map]
  refine List.map_congr_left (fun i _ => ?_)
  dsimp only [Function.comp]
  rw [List.map_map]
  refine List.map_congr_left (fun j _ => ?_)
  dsimp only [Function.comp]
  have hsum : (∑ k ∈ Finset.range x.length, tget (tscale c x) k i j *
      dftKernel x.length k n) =
      ((c : ℝ) : ℂ) * ∑ k ∈ Finset.range x.length, tget x k i j * dftKernel x.length k n := by
    rw [Finset.mul_sum]
    refine Finset.sum_congr rfl (fun k _ => ?_)
    rw [tget_tscale]
    ring
  rw [hsum]
  have hre : ((1 : ℂ) / (x.length : ℂ) * (d : ℚ) *
      (((c : ℝ) : ℂ) * ∑ k ∈ Finset.range x.length, tget x k i j * dftKernel x.length k n)) =
      ((c : ℝ) : ℂ) * ((1 : ℂ) / (x.length : ℂ) * (d : ℚ) *
        ∑ k ∈ Finset.range x.length, tget x k i j * dftKernel x.length k n) := by
    ring
  rw [hre]
  simp [Complex.mul_re]

/-- C8: frequency-to-time conversion is linear in the input spectrum — for
every real scalar `c`, scaling the input spectrum elementwise by `c` scales
the resulting time-domain trace tensor elementwise by the same `c`.  (The
output is a real trace, so the meaningful scalars are real; a complex scalar
cannot scale a real tensor.) -/
theorem claim_C8 (c : ℝ) {fl : List ℚ} {dataf : CTensor} {fc d : ℚ} {out : H5Out}
    (h : freq2time fl dataf fc d = Except.ok out) :
    ∃ out2, freq2time fl (tscale c dataf) fc d = Except.ok out2 ∧
      out2.seismo = tscaleR c out.seismo := by
  obtain ⟨recon, hrec, hfc, rfl⟩ := freq2time_ok h
  have hrec2 : reconstruct fl (tscale c dataf) = Except.ok (tscale c recon) := by
    rw [reconstruct_tscale, hrec]
    rfl
  refine ⟨{ seismo := invTransform (dfreqOf fl)
              (applyWavelet (rickerDelay fc (d / fc) (faxisOf fl)) (tscale c recon))
            fc := fc
            delay := d / fc
            spectrum := tscale c dataf
            seismo_spec := pySliceGet
              (applyWavelet (rickerDelay fc (d / fc) (faxisOf fl)) (tscale c recon))
              (ind1Of fl) (ind2Of fl)
            freqlist := fl
            df := dfreqOf fl
            dt := 1 / dfreqOf fl / ((nfullOf fl : ℚ) - 1) }, ?_, ?_⟩
  · unfold freq2time
    simp only [hrec2]
    rw [if_neg hfc]
  · dsimp only
    rw [applyWavelet_tscale, invTransform_tscale]

/-- Witness for C8 at `c = 2`, `freqlist = [10, 15, 20]`, a 1×1 all-ones
spectrum, `fc = 100`, `delay_n_period = 10`. -/
theorem claim_C8_wit :
    ∃ out out2,
      freq2time [10, 15, 20] (List.replicate 3 [[1]]) 100 10 = Except.ok out ∧
      freq2time [10, 15, 20] (tscale 2 (List.replicate 3 [[1]])) 100 10 = Except.ok out2 ∧
      out2.seismo = tscaleR 2 out.seismo := by
  have hfl : progFL 2 3 5 = [10, 15, 20] := by
    have hr : List.range 3 = [0, 1, 2] := rfl
    rw [progFL, hr]
    norm_num
  have hrec : reconstruct [10, 15, 20] (List.replicate 3 [[1]]) =
      Except.ok (quadSpec (List.replicate 3 [[1]]) 2) := by
    rw [← hfl]
    exact reconstruct_prog 2 3 5 _ (by norm_num) (by norm_num) (by norm_num) (by simp)
  obtain ⟨out, hout⟩ : ∃ out, freq2time [10, 15, 20] (List.replicate 3 [[1]]) 100 10 =
      Except.ok out := by
    unfold freq2time
    simp only [hrec]
    rw [if_neg (by norm_num)]
    exact ⟨_, rfl⟩
  obtain ⟨out2, h2, h3⟩ := claim_C8 2 hout
  exact ⟨out, out2, hout, h2, h3⟩

/-! ## The plotting entry points (C10)

The HDF5 artifacts on disk are modelled as a partial map from file name to
`H5Out` content.  Each plot function is modelled by its data path: which
artifact is read or (re)generated, and every quantity computed from the
artifact that the function displays or prints.  Pure chart parameters
(`figsize`, `aspect`, colors) and the object constants `xsrc`/`xrec` printed
by `plot_seismo` never depend on the artifact and are omitted. -/

/-- The plot data of `plot_seismo` (lines 149-185): the time axis in ms, the
selected trace, and the scalars read from the file that appear in the title
(`delay*1000`, `fc` — note the function's `fc` argument is shadowed by the
value read from the file). -/
structure SeismoDisp where
  t : List ℚ
  trace : List ℝ
  dtOut : ℚ
  delayMs : ℚ
  fcOut : ℚ
  zsrcSel : ℚ
  zrecSel : ℚ

def extractSeismo (c : H5Out) (zsrcPlot zrecPlot : ℚ) (zsrc zrec : List ℚ) : SeismoDisp :=
  { t := (List.range c.seismo.length).map (fun n : ℕ => c.dt * (n : ℚ) * 1000)
    trace := (List.range c.seismo.length).map (fun n : ℕ =>
      tgetR c.seismo n (npArgmin (zsrc.map (fun a => |zsrcPlot - a|)))
        (npArgmin (zrec.map (fun a => |zrecPlot - a|))))
    dtOut := c.dt
    delayMs := c.delay * 1000
    fcOut := c.fc
    zsrcSel := zsrc.getD (npArgmin (zsrc.map (fun a => |zsrcPlot - a|))) 0
    zrecSel := zrec.getD (npArgmin (zrec.map (fun a => |zrecPlot - a|))) 0 }

/-- `np.interp` on a list of (abscissa, ordinate) pairs with increasing
abscissae: clamp outside the range, linear interpolation inside. -/
noncomputable def npInterpPairs (x : ℚ) : List (ℚ × ℝ) → ℝ
  | [] => 0
  | [(_, f0)] => f0
  | (x0, f0) :: (x1, f1) :: ps =>
    if x ≤ x0 then f0
    else if x ≤ x1 then f0 + (f1 - f0) * (((x - x0) / (x1 - x0) : ℚ) : ℝ)
    else npInterpPairs x ((x1, f1) :: ps)

/-- `np.interp(x, xp, fp)`. -/
noncomputable def npInterp (x : ℚ) (xp : List ℚ) (fp : List ℝ) : ℝ :=
  npInterpPairs x (xp.zip fp)

/-- `PltToy2dac.interp_seis` (lines 231-246): resample every trace onto
`np.arange(t[0], t[-1] + 0.5*dt, dt)` with `dt = (t[1]-t[0])/scalar`. -/
noncomputable def interp_seis (t : List ℚ) (data : List (List ℝ)) (scalar : ℚ) :
    List (List ℝ) :=
  (pyArangeQ (t.getD 0 0)
      (t.getD (t.length - 1) 0 + (t.getD 1 0 - t.getD 0 0) / scalar / 2)
      ((t.getD 1 0 - t.getD 0 0) / scalar)).map
    (fun tp => (List.range (data.headD []).length).map (fun i : ℕ =>
      npInterp tp t (data.map (fun row => row.getD i 0))))

/-- `np.max(np.abs(d))` for a nonempty matrix (fold from 0, sound because the
values are absolute). -/
def npMaxAbs (d : List (List ℝ)) : ℝ :=
  d.foldl (fun acc row => row.foldl (fun a v => max a |v|) acc) 0

/-- `np.max(d)` for a nonempty matrix (fold from the first entry; numpy
raises on an empty array, here the junk initial value `0` is used). -/
def npMaxMat (d : List (List ℝ)) : ℝ :=
  d.foldl (fun acc row => row.foldl max acc) ((d.headD []).headD 0)

/-- The plot data of `plot_gather` (lines 187-229): the time window, the
matrix handed to `imshow` (after optional interpolation), the color limits
`±clip·max|data|`, and the axis extent. -/
structure GatherDisp where
  tWindow : List ℚ
  data : List (List ℝ)
  vmin : ℝ
  vmax : ℝ
  ext : ℚ × ℚ × ℚ × ℚ

noncomputable def extractGather (c : H5Out) (zsrcPlot : ℚ) (zrecPlot tPlot : ℚ × ℚ)
    (zsrc zrec : List ℚ) (clip interpScalar : ℚ) : GatherDisp :=
  let t := (List.range c.seismo.length).map
    (fun n : ℕ => (c.dt * (n : ℚ) - c.delay) * 1000)
  let idSrc := npArgmin (zsrc.map (fun a => |zsrcPlot - a|))
  let idRec0 := npArgmin (zrec.map (fun a => |zrecPlot.1 - a|))
  let idRec1 := npArgmin (zrec.map (fun a => |zrecPlot.2 - a|))
  let idt0 := npArgmin (t.map (fun tv => |tPlot.1 - tv|))
  let idt1 := npArgmin (t.map (fun tv => |tPlot.2 - tv|))
  let data0 := (pySliceGet c.seismo (idt0 : ℤ) ((idt1 : ℤ) + 1)).map
    (fun mat => pySliceGet (mat.getD idSrc []) (idRec0 : ℤ) ((idRec1 : ℤ) + 1))
  let data := if 1 < interpScalar then
    interp_seis (pySliceGet t (idt0 : ℤ) ((idt1 : ℤ) + 1)) data0 interpScalar
  else data0
  { tWindow := pySliceGet t (idt0 : ℤ) ((idt1 : ℤ) + 1)
    data := data
    vmin := -(clip : ℝ) * npMaxAbs data
    vmax := (clip : ℝ) * npMaxAbs data
    ext := (zrec.getD idRec0 0, zrec.getD idRec1 0, t.getD idt1 0, t.getD idt0 0) }

/-- The plot data of `plot_wiggle` (lines 248-297): the time axis of the
window and one wiggle curve `offset_i + data[:, i]/max(data)` per trace. -/
structure WiggleDisp where
  taxis : List ℚ
  curves : List (List ℝ)

noncomputable def extractWiggle (c : H5Out) (zsrcPlot : ℚ) (zrecPlot tPlot : ℚ × ℚ)
    (zsrc zrec : List ℚ) : WiggleDisp :=
  let t := (List.range c.seismo.length).map
    (fun n : ℕ => (c.dt * (n : ℚ) - c.delay) * 1000)
  let idSrc := npArgmin (zsrc.map (fun a => |zsrcPlot - a|))
  let idRec0 := npArgmin (zrec.map (fun a => |zrecPlot.1 - a|))
  let idRec1 := npArgmin (zrec.map (fun a => |zrecPlot.2 - a|))
  let idt0 := npArgmin (t.map (fun tv => |tPlot.1 - tv|))
  let idt1 := npArgmin (t.map (fun tv => |tPlot.2 - tv|))
  let data := (pySliceGet c.seismo (idt0 : ℤ) ((idt1 : ℤ) + 1)).map
    (fun mat => pySliceGet (mat.getD idSrc []) (idRec0 : ℤ) ((idRec1 : ℤ) + 1))
  let ntrace : ℤ := (idRec1 : ℤ) - (idRec0 : ℤ) + 1
  { taxis := pySliceGet t (idt0 : ℤ) ((idt1 : ℤ) + 1)
    curves := (List.range ntrace.toNat).map (fun i : ℕ =>
      (data.map (fun row => row.getD i 0)).map
        (fun v => ((1 + i : ℕ) : ℝ) + v * (1 / npMaxMat data))) }

/-- `plot_seismo` (lines 149-185): regenerate the HDF5 artifact via
`freq2time` only when it does not exist, then read and display it.  `dataf`
stands for `read_seis(fname)` and the returned map is the file system after
the call. -/
noncomputable def plot_seismo (fs : String → Option H5Out) (fl : List ℚ) (dataf : CTensor)
    (fh5 : String) (zsrcPlot zrecPlot : ℚ) (zsrc zrec : List ℚ) (fc delayNP : ℚ) :
    Except NpError (SeismoDisp × (String → Option H5Out)) :=
  match fs fh5 with
  | some content => Except.ok (extractSeismo content zsrcPlot zrecPlot zsrc zrec, fs)
  | none =>
    match freq2time fl dataf fc delayNP with
    | Except.error e => Except.error e
    | Except.ok out =>
        Except.ok (extractSeismo out zsrcPlot zrecPlot zsrc zrec,
          fun s => if s = fh5 then some out else fs s)

/-- `plot_gather` (lines 187-229), same regeneration policy. -/
noncomputable def plot_gather (fs : String → Option H5Out) (fl : List ℚ) (dataf : CTensor)
    (fh5 : String) (zsrcPlot : ℚ) (zrecPlot tPlot : ℚ × ℚ) (zsrc zrec : List ℚ)
    (fc delayNP clip interpScalar : ℚ) :
    Except NpError (GatherDisp × (String → Option H5Out)) :=
  match fs fh5 with
  | some content =>
      Except.ok (extractGather content zsrcPlot zrecPlot tPlot zsrc zrec clip interpScalar, fs)
  | none =>
    match freq2time fl dataf fc delayNP with
    | Except.error e => Except.error e
    | Except.ok out =>
        Except.ok (extractGather out zsrcPlot zrecPlot tPlot zsrc zrec clip interpScalar,
          fun s => if s = fh5 then some out else fs s)

/-- `plot_wiggle` (lines 248-297), same regeneration policy (its `clip`
parameter is accepted but never used by the source). -/
noncomputable def plot_wiggle (fs : String → Option H5Out) (fl : List ℚ) (dataf : CTensor)
    (fh5 : String) (zsrcPlot : ℚ) (zrecPlot tPlot : ℚ × ℚ) (zsrc zrec : List ℚ)
    (fc delayNP clip : ℚ) :
    Except NpError (WiggleDisp × (String → Option H5Out)) :=
  match fs fh5 with
  | some content =>
      Except.ok (extractWiggle content zsrcPlot zrecPlot tPlot zsrc zrec, fs)
  | none =>
    match freq2time fl dataf fc delayNP with
    | Except.error e => Except.error e
    | Except.ok out =>
        Except.ok (extractWiggle out zsrcPlot zrecPlot tPlot zsrc zrec,
          fun s => if s = fh5 then some out else fs s)

/-- C10: if the artifact `fh5` already exists, `plot_seismo`, `plot_gather`
and `plot_wiggle` do not regenerate it (the file system is returned
unchanged) and everything they read and display — including the stored `fc`,
`delay` and `dt` — comes from the stored content only: the result is the
same for every value of the `fc` and `delay_n_period` arguments. -/
theorem claim_C10 (fs : String → Option H5Out) (fh5 : String) (content : H5Out)
    (fl : List ℚ) (dataf : CTensor) (zsrcPlot zrecPlot zsrcPlotW : ℚ)
    (zrecPlotG tPlotG : ℚ × ℚ) (zsrc zrec : List ℚ)
    (h : fs fh5 = some content) :
    (∀ fc delayNP, plot_seismo fs fl dataf fh5 zsrcPlot zrecPlot zsrc zrec fc delayNP =
      Except.ok (extractSeismo content zsrcPlot zrecPlot zsrc zrec, fs)) ∧
    (∀ fc delayNP clip interpScalar,
      plot_gather fs fl dataf fh5 zsrcPlotW zrecPlotG tPlotG zsrc zrec fc delayNP
          clip interpScalar =
        Except.ok (extractGather content zsrcPlotW zrecPlotG tPlotG zsrc zrec
          clip interpScalar, fs)) ∧
    (∀ fc delayNP clip,
      plot_wiggle fs fl dataf fh5 zsrcPlotW zrecPlotG tPlotG zsrc zrec fc delayNP clip =
        Except.ok (extractWiggle content zsrcPlotW zrecPlotG tPlotG zsrc zrec, fs)) := by
  refine ⟨fun fc delayNP => ?_, fun fc delayNP clip interpScalar => ?_,
    fun fc delayNP clip => ?_⟩
  · unfold plot_seismo
    simp only [h]
  · unfold plot_gather
    simp only [h]
  · unfold plot_wiggle
    simp only [h]

/-- Witness for C10 on a one-entry file system holding a small artifact. -/
theorem claim_C10_wit :
    (∀ fc delayNP, plot_seismo (fun _ => some ⟨[[[1]]], 100, 1 / 10, [[[1]]], [[[1]]],
        [5, 10], 5, 1 / 40⟩) [5, 10] [[[1]]] "d" 0 0 [0] [0] fc delayNP =
      Except.ok (extractSeismo ⟨[[[1]]], 100, 1 / 10, [[[1]]], [[[1]]], [5, 10], 5, 1 / 40⟩
        0 0 [0] [0], fun _ => some ⟨[[[1]]], 100, 1 / 10, [[[1]]], [[[1]]],
        [5, 10], 5, 1 / 40⟩)) ∧
    (∀ fc delayNP clip interpScalar,
      plot_gather (fun _ => some ⟨[[[1]]], 100, 1 / 10, [[[1]]], [[[1]]], [5, 10], 5, 1 / 40⟩)
          [5, 10] [[[1]]] "d" 0 (0, 1) (0, 1) [0] [0] fc delayNP clip interpScalar =
        Except.ok (extractGather ⟨[[[1]]], 100, 1 / 10, [[[1]]], [[[1]]], [5, 10], 5, 1 / 40⟩
          0 (0, 1) (0, 1) [0] [0] clip interpScalar,
          fun _ => some ⟨[[[1]]], 100, 1 / 10, [[[1]]], [[[1]]], [5, 10], 5, 1 / 40⟩)) ∧
    (∀ fc delayNP clip,
      plot_wiggle (fun _ => some ⟨[[[1]]], 100, 1 / 10, [[[1]]], [[[1]]], [5, 10], 5, 1 / 40⟩)
          [5, 10] [[[1]]] "d" 0 (0, 1) (0, 1) [0] [0] fc delayNP clip =
        Except.ok (extractWiggle ⟨[[[1]]], 100, 1 / 10, [[[1]]], [[[1]]], [5, 10], 5, 1 / 40⟩
          0 (0, 1) (0, 1) [0] [0],
          fun _ => some ⟨[[[1]]], 100, 1 / 10, [[[1]]], [[[1]]], [5, 10], 5, 1 / 40⟩)) :=
  claim_C10 (fun _ => some ⟨[[[1]]], 100, 1 / 10, [[[1]]], [[[1]]], [5, 10], 5, 1 / 40⟩)
    "d" ⟨[[[1]]], 100, 1 / 10, [[[1]]], [[[1]]], [5, 10], 5, 1 / 40⟩
    [5, 10] [[[1]]] 0 0 0 (0, 1) (0, 1) [0] [0] rfl

/-! ## The transform of line 138 (C4) -/

/-- The summand of the unnormalised **inverse** DFT (positive exponent
`exp(+2πi·k·n/N)`), the standard reading of the spec's "inverse discrete
Fourier transform" with the `1/N` factor accounted separately by the claim's
"scaled by Δf/N". -/
noncomputable def idftKernel (N k n : ℕ) : ℂ :=
  Complex.exp ((2 * (Real.pi : ℂ) * Complex.I * ((k * n : ℕ) : ℂ)) / (N : ℂ))

/-- Unnormalised inverse DFT of a column at time index `n`. -/
noncomputable def idftPoint (col : ℕ → ℂ) (N n : ℕ) : ℂ :=
  ∑ k ∈ Finset.range N, col k * idftKernel N k n

/-- Unnormalised forward DFT of a column at time index `n` (what
`np.fft.fftn` computes). -/
noncomputable def dftPoint (col : ℕ → ℂ) (N n : ℕ) : ℂ :=
  ∑ k ∈ Finset.range N, col k * dftKernel N k n

theorem applyWavelet_dims1 (w : List ℂ) (x : CTensor) (hw : w ≠ []) :
    ((applyWavelet w x).headD []).length = (x.headD []).length := by
  cases w with
  | nil => exact absurd rfl hw
  | cons r w2 =>
    cases x with
    | nil => rfl
    | cons m x2 => simp [applyWavelet]

theorem applyWavelet_dims2 (w : List ℂ) (x : CTensor) (hw : w ≠ []) :
    (((applyWavelet w x).headD []).headD []).length =
      ((x.headD []).headD []).length := by
  cases w with
  | nil => exact absurd rfl hw
  | cons r w2 =>
    cases x with
    | nil => rfl
    | cons m x2 =>
      cases m with
      | nil => simp [applyWavelet]
      | cons row m2 => simp [applyWavelet]

theorem rickerDelay_ne_nil {fl : List ℚ} {dataf s : CTensor} (fc delay : ℚ)
    (h : reconstruct fl dataf = Except.ok s) :
    rickerDelay fc delay (faxisOf fl) ≠ [] := by
  have hg := reconstruct_ok_guard h
  have hlen : (rickerDelay fc delay (faxisOf fl)).length = nfullOf fl := by
    rw [rickerDelay, List.length_map, faxis_length]
  intro hnil
  rw [hnil] at hlen
  simp only [List.length_nil] at hlen
  rw [nfullOf] at hlen
  omega

set_option maxHeartbeats 1000000 in
/-- C4 (amended): the time trace stored by `freq2time` is the negated real
part of the **forward** DFT (numpy `fftn`, negative exponent
`exp(-2πi·k·n/N)`) of the convolved full spectrum, scaled by `Δf/N`; the
claim's "inverse discrete Fourier transform" (positive exponent) holds only
up to time reversal and fails pointwise (see the counterexample).  Under the
e^{-iωt} physics sign convention the forward DFT plays the role of the
frequency-to-time synthesis. -/
theorem claim_C4 {fl : List ℚ} {dataf : CTensor} {fc d : ℚ} {out : H5Out}
    {recon : CTensor} (h : freq2time fl dataf fc d = Except.ok out)
    (hrec : reconstruct fl dataf = Except.ok recon)
    {n i j : ℕ} (hn : n < nfullOf fl)
    (hi : i < (recon.headD []).length)
    (hj : j < ((recon.headD []).headD []).length) :
    tgetR out.seismo n i j =
      -((((dfreqOf fl : ℚ) : ℂ) / (nfullOf fl : ℂ)) *
        dftPoint (fun k =>
          tget (applyWavelet (rickerDelay fc (d / fc) (faxisOf fl)) recon) k i j)
          (nfullOf fl) n).re := by
  obtain ⟨recon2, hrec2, hfc, rfl⟩ := freq2time_ok h
  rw [hrec] at hrec2
  injection hrec2 with he
  subst he
  dsimp only
  have hwne := rickerDelay_ne_nil fc (d / fc) hrec
  have hlen : (applyWavelet (rickerDelay fc (d / fc) (faxisOf fl)) recon).length =
      nfullOf fl := by
    rw [applyWavelet_length, rickerDelay, List.length_map, faxis_length,
      reconstruct_ok_length hrec, min_self]
  have hi2 : i < ((applyWavelet (rickerDelay fc (d / fc) (faxisOf fl)) recon).headD
      []).length := by
    rw [applyWavelet_dims1 _ _ hwne]
    exact hi
  have hj2 : j < (((applyWavelet (rickerDelay fc (d / fc) (faxisOf fl)) recon).headD
      []).headD []).length := by
    rw [applyWavelet_dims2 _ _ hwne]
    exact hj
  rw [invTransform_tgetR (dfreqOf fl) _ (by rw [hlen]; exact hn) hi2 hj2, hlen]
  rw [dftPoint]
  congr 1
  ring_nf

/-- Witness for the amended C4 at `freqlist = [10, 15, 20]`, `n = i = j = 0`. -/
theorem claim_C4_wit :
    ∃ out recon, freq2time [10, 15, 20] (List.replicate 3 [[1]]) 100 10 = Except.ok out ∧
      reconstruct [10, 15, 20] (List.replicate 3 [[1]]) = Except.ok recon ∧
      tgetR out.seismo 0 0 0 =
        -((((dfreqOf [10, 15, 20] : ℚ) : ℂ) / (nfullOf [10, 15, 20] : ℂ)) *
          dftPoint (fun k =>
            tget (applyWavelet (rickerDelay 100 (10 / 100) (faxisOf [10, 15, 20])) recon) k 0 0)
            (nfullOf [10, 15, 20]) 0).re := by
  have hfl : progFL 2 3 5 = [10, 15, 20] := by
    have hr : List.range 3 = [0, 1, 2] := rfl
    rw [progFL, hr]
    norm_num
  have hrec : reconstruct [10, 15, 20] (List.replicate 3 [[1]]) =
      Except.ok (quadSpec (List.replicate 3 [[1]]) 2) := by
    rw [← hfl]
    exact reconstruct_prog 2 3 5 _ (by norm_num) (by norm_num) (by norm_num) (by simp)
  obtain ⟨out, hout⟩ : ∃ out, freq2time [10, 15, 20] (List.replicate 3 [[1]]) 100 10 =
      Except.ok out := by
    unfold freq2time
    simp only [hrec]
    rw [if_neg (by norm_num)]
    exact ⟨_, rfl⟩
  have hn : (0 : ℕ) < nfullOf [10, 15, 20] := by
    rw [← hfl, progFL_nfull 2 3 5 (by norm_num) (by norm_num)]
    norm_num
  have hi : (0 : ℕ) < ((quadSpec (List.replicate 3 [[1]]) 2).headD []).length := by
    decide
  have hj : (0 : ℕ) <
      (((quadSpec (List.replicate 3 [[1]]) 2).headD []).headD []).length := by
    decide
  exact ⟨out, _, hout, hrec, claim_C4 hout hrec hn hi hj⟩

/-! ### Concrete values for the C4 counterexample
(`freqlist = [10, 15]`, `fc = 40`, `delay_n_period = 1`, so `delay = 1/40`
and the wavelet at `±10 Hz` is purely imaginary: `2π·10·(1/40) = π/2`.) -/

theorem ricker_val_pos : rickerTerm 40 (1 / 40) 10 =
    ((2 / Real.sqrt Real.pi * (100 / 64000) * Real.exp (-(1 / 16)) : ℝ) : ℂ) *
      Complex.I := by
  unfold rickerTerm
  have harg : -(((10 : ℚ) : ℂ) / ((40 : ℚ) : ℂ)) ^ 2 +
      Complex.I * 2 * (Real.pi : ℂ) * ((10 : ℚ) : ℂ) * ((1 / 40 : ℚ) : ℂ) =
      ((-(1 / 16) : ℝ) : ℂ) + ((Real.pi / 2 : ℝ) : ℂ) * Complex.I := by
    push_cast
    ring
  rw [harg, Complex.exp_add, Complex.exp_mul_I]
  rw [← Complex.ofReal_exp, ← Complex.ofReal_cos, ← Complex.ofReal_sin]
  rw [Real.cos_pi_div_two, Real.sin_pi_div_two]
  push_cast
  ring

theorem ricker_val_neg : rickerTerm 40 (1 / 40) (-10) =
    -(((2 / Real.sqrt Real.pi * (100 / 64000) * Real.exp (-(1 / 16)) : ℝ) : ℂ) *
      Complex.I) := by
  unfold rickerTerm
  have harg : -(((-10 : ℚ) : ℂ) / ((40 : ℚ) : ℂ)) ^ 2 +
      Complex.I * 2 * (Real.pi : ℂ) * ((-10 : ℚ) : ℂ) * ((1 / 40 : ℚ) : ℂ) =
      ((-(1 / 16) : ℝ) : ℂ) + ((-(Real.pi / 2) : ℝ) : ℂ) * Complex.I := by
    push_cast
    ring
  rw [harg, Complex.exp_add, Complex.exp_mul_I]
  rw [← Complex.ofReal_exp, ← Complex.ofReal_cos, ← Complex.ofReal_sin]
  rw [Real.cos_neg, Real.sin_neg, Real.cos_pi_div_two, Real.sin_pi_div_two]
  push_cast
  ring

theorem dftK_7_2_1 : dftKernel 7 2 1 =
    Complex.exp (((-(4 * Real.pi / 7) : ℝ) : ℂ) * Complex.I) := by
  unfold dftKernel
  congr 1
  push_cast
  ring

theorem dftK_7_5_1 : dftKernel 7 5 1 =
    Complex.exp (((4 * Real.pi / 7 : ℝ) : ℂ) * Complex.I) := by
  unfold dftKernel
  have h : -(2 * (Real.pi : ℂ) * Complex.I * ((5 * 1 : ℕ) : ℂ)) / ((7 : ℕ) : ℂ) =
      ((4 * Real.pi / 7 : ℝ) : ℂ) * Complex.I +
        (-1 : ℤ) * (2 * (Real.pi : ℂ) * Complex.I) := by
    push_cast
    ring
  rw [h, Complex.exp_add, Complex.exp_int_mul_two_pi_mul_I, mul_one]

theorem idftK_7_2_1 : idftKernel 7 2 1 =
    Complex.exp (((4 * Real.pi / 7 : ℝ) : ℂ) * Complex.I) := by
  unfold idftKernel
  congr 1
  push_cast
  ring

theorem idftK_7_5_1 : idftKernel 7 5 1 =
    Complex.exp (((-(4 * Real.pi / 7) : ℝ) : ℂ) * Complex.I) := by
  unfold idftKernel
  have h : 2 * (Real.pi : ℂ) * Complex.I * ((5 * 1 : ℕ) : ℂ) / ((7 : ℕ) : ℂ) =
      ((-(4 * Real.pi / 7) : ℝ) : ℂ) * Complex.I +
        (1 : ℤ) * (2 * (Real.pi : ℂ) * Complex.I) := by
    push_cast
    ring
  rw [h, Complex.exp_add, Complex.exp_int_mul_two_pi_mul_I, mul_one]

theorem pair_sum_code : rickerTerm 40 (1 / 40) 10 *
      Complex.exp (((-(4 * Real.pi / 7) : ℝ) : ℂ) * Complex.I) +
    rickerTerm 40 (1 / 40) (-10) *
      Complex.exp (((4 * Real.pi / 7 : ℝ) : ℂ) * Complex.I) =
    ((2 * (2 / Real.sqrt Real.pi * (100 / 64000) * Real.exp (-(1 / 16))) *
      Real.sin (4 * Real.pi / 7) : ℝ) : ℂ) := by
  rw [ricker_val_pos, ricker_val_neg, Complex.exp_mul_I, Complex.exp_mul_I]
  rw [← Complex.ofReal_cos, ← Complex.ofReal_sin, ← Complex.ofReal_cos,
    ← Complex.ofReal_sin]
  rw [Real.cos_neg, Real.sin_neg]
  apply Complex.ext <;>
    simp [Complex.mul_re, Complex.mul_im, Complex.add_re, Complex.add_im] <;>
    ring

theorem pair_sum_spec : rickerTerm 40 (1 / 40) 10 *
      Complex.exp (((4 * Real.pi / 7 : ℝ) : ℂ) * Complex.I) +
    rickerTerm 40 (1 / 40) (-10) *
      Complex.exp (((-(4 * Real.pi / 7) : ℝ) : ℂ) * Complex.I) =
    ((-(2 * (2 / Real.sqrt Real.pi * (100 / 64000) * Real.exp (-(1 / 16))) *
      Real.sin (4 * Real.pi / 7)) : ℝ) : ℂ) := by
  rw [ricker_val_pos, ricker_val_neg, Complex.exp_mul_I, Complex.exp_mul_I]
  rw [← Complex.ofReal_cos, ← Complex.ofReal_sin, ← Complex.ofReal_cos,
    ← Complex.ofReal_sin]
  rw [Real.cos_neg, Real.sin_neg]
  apply Complex.ext <;>
    simp [Complex.mul_re, Complex.mul_im, Complex.add_re, Complex.add_im] <;>
    ring

set_option maxHeartbeats 1000000 in
/-- C4 counterexample: at `freqlist = [10, 15]`, a unit impulse at 10 Hz,
`fc = 40`, `delay_n_period = 1`, the trace sample at time index 1 does
**not** equal the negated real part of the (positive-exponent) inverse DFT of
the convolved spectrum scaled by `Δf/N`: the code applies `np.fft.fftn`, the
forward transform, and the two differ by time reversal — here by the sign of
`sin(4π/7) ≠ 0`. -/
theorem claim_C4_cex :
    ∃ out, freq2time [10, 15] [[[1]], [[0]]] 40 1 = Except.ok out ∧
      tgetR out.seismo 1 0 0 ≠
        -((((dfreqOf [10, 15] : ℚ) : ℂ) / (nfullOf [10, 15] : ℂ)) *
          idftPoint (fun k =>
            tget (applyWavelet (rickerDelay 40 (1 / 40) (faxisOf [10, 15]))
              ((reconstruct [10, 15] [[[1]], [[0]]]).toOption.getD [])) k 0 0)
            (nfullOf [10, 15]) 1).re := by
  have hfl : progFL 2 2 5 = [10, 15] := by
    have hr : List.range 2 = [0, 1] := rfl
    rw [progFL, hr]
    norm_num
  have hrec : reconstruct [10, 15] [[[1]], [[0]]] =
      Except.ok (quadSpec [[[1]], [[0]]] 2) := by
    rw [← hfl]
    exact reconstruct_prog 2 2 5 _ (by norm_num) (by norm_num) (by norm_num) (by simp)
  have hdf : dfreqOf [10, 15] = 5 := by
    rw [← hfl]
    exact progFL_dfreq 2 2 5 (by norm_num)
  have hnh : nhalfOf [10, 15] = 3 := by
    rw [← hfl, progFL_nhalf 2 2 5 (by norm_num) (by norm_num)]
    norm_num
  have hN : nfullOf [10, 15] = 7 := by
    rw [← hfl, progFL_nfull 2 2 5 (by norm_num) (by norm_num)]
  have hfax : faxisOf [10, 15] = [0, 5, 10, 15, -15, -10, -5] := by
    rw [faxisOf, hnh, hdf]
    rw [show pyRoll (pyArange (-3) (3 + 1)) (-3) = ([0, 1, 2, 3, -3, -2, -1] : List ℤ)
      from by decide]
    norm_num
  have hw2 : (rickerDelay 40 (1 / 40) (faxisOf [10, 15])).getD 2 0 =
      rickerTerm 40 (1 / 40) 10 := by
    rw [rickerDelay, hfax]
    rfl
  have hw5 : (rickerDelay 40 (1 / 40) (faxisOf [10, 15])).getD 5 0 =
      rickerTerm 40 (1 / 40) (-10) := by
    rw [rickerDelay, hfax]
    rfl
  have hS0 : tget (quadSpec [[[1]], [[0]]] 2) 0 0 0 = 0 :=
    tget_quadSpec_zero_lo _ 2 (by norm_num) 0 0
  have hS1 : tget (quadSpec [[[1]], [[0]]] 2) 1 0 0 = 0 :=
    tget_quadSpec_zero_lo _ 2 (by norm_num) 0 0
  have hS2 : tget (quadSpec [[[1]], [[0]]] 2) 2 0 0 = 1 := by
    rw [tget_quadSpec_data _ 2 (by norm_num) (by simp)]
    rfl
  have hS3 : tget (quadSpec [[[1]], [[0]]] 2) 3 0 0 = 0 := by
    rw [tget_quadSpec_data _ 2 (by norm_num) (by simp)]
    rfl
  have hS4 : tget (quadSpec [[[1]], [[0]]] 2) 4 0 0 = 0 := by
    rw [tget_quadSpec_conj _ 2 (by simp) (by simp)]
    rw [show tget [[[1]], [[0]]] (2 + 2 * ([[[1]], [[0]]] : CTensor).length - 1 - 4) 0 0 =
      0 from rfl]
    exact map_zero _
  have hS5 : tget (quadSpec [[[1]], [[0]]] 2) 5 0 0 = 1 := by
    rw [tget_quadSpec_conj _ 2 (by simp) (by simp)]
    rw [show tget [[[1]], [[0]]] (2 + 2 * ([[[1]], [[0]]] : CTensor).length - 1 - 5) 0 0 =
      1 from rfl]
    exact map_one _
  have hS6 : tget (quadSpec [[[1]], [[0]]] 2) 6 0 0 = 0 :=
    tget_quadSpec_zero_hi _ 2 (by simp) 0 0
  have hsum : ∀ K : ℕ → ℂ,
      (∑ k ∈ Finset.range 7,
        tget (applyWavelet (rickerDelay 40 (1 / 40) (faxisOf [10, 15]))
          (quadSpec [[[1]], [[0]]] 2)) k 0 0 * K k) =
      rickerTerm 40 (1 / 40) 10 * K 2 + rickerTerm 40 (1 / 40) (-10) * K 5 := by
    intro K
    simp only [Finset.sum_range_succ, Finset.sum_range_zero, tget_applyWavelet]
    rw [hS0, hS1, hS2, hS3, hS4, hS5, hS6, hw2, hw5]
    ring
  obtain ⟨out, hout⟩ : ∃ out, freq2time [10, 15] [[[1]], [[0]]] 40 1 = Except.ok out := by
    unfold freq2time
    simp only [hrec]
    rw [if_neg (by norm_num)]
    exact ⟨_, rfl⟩
  refine ⟨out, hout, ?_⟩
  obtain ⟨recon2, hrec2, hfc, rfl⟩ := freq2time_ok hout
  rw [hrec] at hrec2
  injection hrec2 with he
  subst he
  dsimp only
  have hwne : rickerDelay 40 (1 / 40) (faxisOf [10, 15]) ≠ [] :=
    rickerDelay_ne_nil _ _ hrec
  have hSlen : (quadSpec [[[1]], [[0]]] 2).length = 7 := by
    rw [reconstruct_ok_length hrec, hN]
  have hlen : (applyWavelet (rickerDelay 40 (1 / 40) (faxisOf [10, 15]))
      (quadSpec [[[1]], [[0]]] 2)).length = 7 := by
    rw [applyWavelet_length, rickerDelay, List.length_map, faxis_length, hN, hSlen,
      min_self]
  have hi2 : (0 : ℕ) < ((applyWavelet (rickerDelay 40 (1 / 40) (faxisOf [10, 15]))
      (quadSpec [[[1]], [[0]]] 2)).headD []).length := by
    rw [applyWavelet_dims1 _ _ hwne]
    decide
  have hj2 : (0 : ℕ) < (((applyWavelet (rickerDelay 40 (1 / 40) (faxisOf [10, 15]))
      (quadSpec [[[1]], [[0]]] 2)).headD []).headD []).length := by
    rw [applyWavelet_dims2 _ _ hwne]
    decide
  rw [invTransform_tgetR (dfreqOf [10, 15]) _ (by rw [hlen]; norm_num) hi2 hj2, hlen]
  rw [hrec]
  simp only [Except.toOption, Option.getD_some]
  rw [hN, hdf, idftPoint]
  rw [hsum (fun k => dftKernel 7 k 1), hsum (fun k => idftKernel 7 k 1)]
  rw [dftK_7_2_1, dftK_7_5_1, idftK_7_2_1, idftK_7_5_1, pair_sum_code, pair_sum_spec]
  have h1 : ((1 : ℂ) / (7 : ℕ) * ((5 : ℚ) : ℂ) *
      ((2 * (2 / Real.sqrt Real.pi * (100 / 64000) * Real.exp (-(1 / 16))) *
        Real.sin (4 * Real.pi / 7) : ℝ) : ℂ)) =
      (5 / 7 * (2 * (2 / Real.sqrt Real.pi * (100 / 64000) * Real.exp (-(1 / 16))) *
        Real.sin (4 * Real.pi / 7)) : ℝ) := by
    push_cast
    ring
  have h2 : (((5 : ℚ) : ℂ) / ((7 : ℕ) : ℂ) *
      ((-(2 * (2 / Real.sqrt Real.pi * (100 / 64000) * Real.exp (-(1 / 16))) *
        Real.sin (4 * Real.pi / 7)) : ℝ) : ℂ)) =
      (-(5 / 7 * (2 * (2 / Real.sqrt Real.pi * (100 / 64000) * Real.exp (-(1 / 16))) *
        Real.sin (4 * Real.pi / 7))) : ℝ) := by
    push_cast
    ring
  rw [h1, h2, Complex.ofReal_re, Complex.ofReal_re]
  have hA : (0 : ℝ) < 2 / Real.sqrt Real.pi * (100 / 64000) * Real.exp (-(1 / 16)) := by
    have hpi := Real.pi_pos
    positivity
  have hsin : (0 : ℝ) < Real.sin (4 * Real.pi / 7) := by
    apply Real.sin_pos_of_pos_of_lt_pi
    · positivity
    · nlinarith [Real.pi_pos]
  intro heq
  nlinarith [mul_pos hA hsin, heq]
